import Mathlib

/-!
# Share-file bot: update dispatch (`bot/bot.go`) and `/start` (`bot/handler_common.go`)

A shallow embedding of `Bot.onUpdate` and of the handlers defined next to it.
Everything the two source files call but do not define (the session store, the
file service, the messaging client, the other handlers, a few constants) is a
field of `Bot`; the state of the outside world is threaded explicitly as a
value of an arbitrary type `σ`, and every call the embedded code makes is
recorded in a trace.
-/

namespace ShareFileBot


/-! ## Errors -/

/-- The two failure kinds of `strconv` (`strconv.ErrSyntax`, `strconv.ErrRange`). -/
inductive NumErrKind
  | ErrSyntax
  | ErrRange
deriving DecidableEq, Repr

/-- Go `error` values that are not nil: the sentinel `core.ErrFileNotFound`, a
`*strconv.NumError`, any other base error (told apart by a tag), and the result
of `errors.Wrap(cause, message)`. -/
inductive Err
  | ErrFileNotFound
  | NumError (func : String) (num : String) (kind : NumErrKind)
  | other (tag : Nat)
  | Wrap (cause : Err) (message : String)
deriving DecidableEq, Repr

/-- `errors.Cause`: strips every `Wrap` layer. -/
def Cause : Err → Err
  | .Wrap cause _ => Cause cause
  | e => e

/-- What a Go function of result type `error` does: returns nil, returns an
error, or panics at run time (index out of range). -/
inductive Ret
  | nil
  | err (e : Err)
  | panic
deriving DecidableEq, Repr

/-! ## `strconv.Atoi` -/

/-- Value of a string of decimal digits, most significant first (the loop
`n = n*10 + int(ch - 48)` of `strconv`). -/
def digitsValue (ds : List Char) : Nat :=
  ds.foldl (fun n ch => n * 10 + (ch.toNat - 48)) 0

/-- `strconv.Atoi` on a platform whose `int` has `intSize` bits: an optional
sign, then one or more ASCII digits; anything else is `ErrSyntax`; a value
outside `[-2^(intSize-1), 2^(intSize-1) - 1]` is `ErrRange`. -/
def Atoi (intSize : Nat) (s : String) : Except Err Int :=
  let neg : Bool := s.data.head? = some '-'
  let ds : List Char :=
    if s.data.head? = some '-' ∨ s.data.head? = some '+' then s.data.tail else s.data
  if ds = [] ∨ ¬ ds.all Char.isDigit then
    .error (.NumError "Atoi" s .ErrSyntax)
  else
    let un := digitsValue ds
    let cutoff := 2 ^ (intSize - 1)
    if !neg && cutoff ≤ un then .error (.NumError "Atoi" s .ErrRange)
    else if neg && cutoff < un then .error (.NumError "Atoi" s .ErrRange)
    else .ok (if neg then - (un : Int) else (un : Int))

/-! ## Regular expressions of the callback table -/

/-- The pieces the literal callback regexes are made of: literal text and the
capture group `(\d+)`. -/
inductive Tok
  | lit (text : List Char)
  | digits
deriving DecidableEq, Repr

/-- A regex source of the shape `^? piece* $?`. -/
structure Pattern where
  bol : Bool
  toks : List Tok
  eol : Bool
deriving DecidableEq, Repr

/-- A successful match: the text skipped before it, the matched text (group 0)
and the text of the capture groups. -/
structure Match where
  pre : List Char
  whole : List Char
  caps : List (List Char)
deriving DecidableEq, Repr

/-- Rest of a greedy `\d+` once `acc` (at least one digit) is consumed: take one
more digit if there is one and the remainder of the regex then matches, else go
on with the remainder of the regex (`k`) from here. -/
def matchDigitsMore {α : Type} (k : List Char → List Char → Option α) :
    List Char → List Char → Option α
  | acc, [] => k acc []
  | acc, c :: cs =>
    if c.isDigit then
      match matchDigitsMore k (acc ++ [c]) cs with
      | some r => some r
      | none => k acc (c :: cs)
    else k acc (c :: cs)

/-- Match the pieces at the start of the input, with the preference order of
Go's leftmost-first semantics; gives the captures and the unconsumed input. -/
def matchToks (eol : Bool) : List Tok → List Char → Option (List (List Char) × List Char)
  | [], s => if eol && !s.isEmpty then none else some ([], s)
  | .lit text :: ts, s =>
    if text.isPrefixOf s then matchToks eol ts (s.drop text.length) else none
  | .digits :: _, [] => none
  | .digits :: ts, c :: cs =>
    if c.isDigit then
      matchDigitsMore
        (fun cap rest => (matchToks eol ts rest).map (fun r => (cap :: r.1, r.2))) [c] cs
    else none

/-- A match of the pattern that starts exactly at the start of `s`. -/
def matchHere (p : Pattern) (pre s : List Char) : Option Match :=
  (matchToks p.eol p.toks s).map
    (fun r => { pre := pre, whole := s.take (s.length - r.2.length), caps := r.1 })

/-- Leftmost match of an unanchored pattern: try each start position in turn. -/
def searchFrom (p : Pattern) : List Char → List Char → Option Match
  | pre, [] => matchHere p pre []
  | pre, c :: cs =>
    match matchHere p pre (c :: cs) with
    | some m => some m
    | none => searchFrom p (pre ++ [c]) cs

/-- A compiled regular expression, seen through the one thing the dispatcher
uses: the leftmost match in a text, if there is one. -/
structure Regexp where
  exec : List Char → Option Match

/-- `regexp.MustCompile` on a pattern of the shape above. -/
def MustCompile (p : Pattern) : Regexp :=
  { exec := fun s => if p.bol then matchHere p [] s else searchFrom p [] s }

/-- Length of a text in bytes of UTF-8. -/
def utf8Len (cs : List Char) : Nat :=
  (cs.map Char.utf8Size).sum

/-- `(*Regexp).FindStringIndex`: the byte offsets `[start, end]` of the leftmost
match, nil (the empty slice) when there is none. -/
def Regexp.FindStringIndex (re : Regexp) (s : String) : List Nat :=
  match re.exec s.data with
  | some m => [utf8Len m.pre, utf8Len m.pre + utf8Len m.whole]
  | none => []

/-- `(*Regexp).FindStringSubmatch`: the matched text followed by the text of each
capture group, nil when there is no match. -/
def Regexp.FindStringSubmatch (re : Regexp) (s : String) : List String :=
  match re.exec s.data with
  | some m => (m.whole :: m.caps).map String.mk
  | none => []

def cbqFileRefresh : Regexp :=
  MustCompile ⟨true, [.lit "file:".data, .digits, .lit ":refresh".data], true⟩

def cbqFileDelete : Regexp :=
  MustCompile ⟨true, [.lit "file:".data, .digits, .lit ":delete".data], true⟩

def cbqFileDeleteConfirm : Regexp :=
  MustCompile ⟨true, [.lit "file:".data, .digits, .lit ":delete:confirm".data], true⟩

def cbqFileRestrictions : Regexp :=
  MustCompile ⟨true, [.lit "file:".data, .digits, .lit ":restrictions".data], true⟩

def cbqFileRestrictionsChat : Regexp :=
  MustCompile ⟨false, [.lit "file:".data, .digits,
    .lit ":restrictions:chat-subscription:".data, .digits, .lit ":toggl".data], false⟩

def cbqFileRestrictionsChatCheck : Regexp :=
  MustCompile ⟨true, [.lit "file:".data, .digits, .lit ":restrictions:chat:check".data], true⟩

def cbqSettingsChannelsAndChatsDetails : Regexp :=
  MustCompile ⟨true, [.lit "settings:channels-and-chats:".data, .digits], true⟩

def cbqSettingsChannelsAndChatsDelete : Regexp :=
  MustCompile ⟨true, [.lit "settings:channels-and-chats:".data, .digits,
    .lit ":delete".data], true⟩

def cbqSettingsChannelsAndChatsDeleteConfirm : Regexp :=
  MustCompile ⟨true, [.lit "settings:channels-and-chats:".data, .digits,
    .lit ":delete:confirm".data], true⟩

/-! ## Data model -/

abbrev UserID := Int

abbrev FileID := Int

abbrev ChatID := Int

/-- The resolved user (`core.User`); only its identifier is read here. -/
structure User where
  ID : UserID
deriving DecidableEq, Repr

/-- The request context; `getUserCtx` reads the user the auth middleware put there. -/
structure Context where
  user : User
deriving DecidableEq, Repr

def getUserCtx (ctx : Context) : User := ctx.user

/-- A `tgbotapi.Message`, with the fields that tell messages apart and the one
field the dispatcher reads directly. -/
structure Message where
  MessageID : Int
  Text : String
  NewChatTitle : String
deriving DecidableEq, Repr

/-- A `tgbotapi.CallbackQuery`. -/
structure CallbackQuery where
  ID : String
  Data : String
deriving DecidableEq, Repr

/-- A `tgbotapi.Update`: three pointer fields, each of which may be nil. -/
structure Update where
  Message : Option Message
  ChannelPost : Option ShareFileBot.Message
  CallbackQuery : Option CallbackQuery
deriving DecidableEq, Repr

/-- Session states of package `state`. -/
inductive State
  | Empty
  | SettingsChannelsAndChatsConnect
  | other (code : Nat)
deriving DecidableEq, Repr

/-- Media kinds of package `core`; `recognised` stands for every kind other than
`KindUnknown`. -/
inductive Kind
  | KindUnknown
  | recognised (code : Nat)
deriving DecidableEq, Repr

structure OwnedFile where
  ID : FileID
deriving DecidableEq, Repr

structure File where
  ID : FileID
deriving DecidableEq, Repr

structure ChatSubRequest where
  FileID : FileID
deriving DecidableEq, Repr

/-- Result of `fileSrv.GetFileByPublicID`: three pointer fields. -/
structure GetFileResult where
  OwnedFile : Option OwnedFile
  File : Option File
  ChatSubRequest : Option ChatSubRequest
deriving DecidableEq, Repr

/-- Outgoing messages, named after the function of the bot that builds them
(none of the builders is defined in the two files; they are kept uninterpreted). -/
inductive Chattable
  | newAnswerMsg (msg : Message) (text : String)
  | newReplyMsg (msg : Message) (text : String)
  | renderOwnedFile (msg : Message) (file : OwnedFile)
  | renderNotOwnedFile (msg : Message) (file : File)
  | renderSubRequest (msg : Message) (req : ChatSubRequest)
deriving DecidableEq, Repr

/-- One invocation of a handler by `onUpdate`, with its arguments (the context
apart). -/
inductive Call
  | onChatNewTitle (msg : Message)
  | onSettingsChannelsAndChatsConnectState (msg : Message)
  | onStart (msg : Message)
  | onHelp (msg : Message)
  | onAdmin (msg : Message)
  | onSettings (msg : Message)
  | onVersion (msg : Message)
  | onFile (msg : Message)
  | onUnsupportedFileKind (msg : Message)
  | onFileRestrictionsChatCheck (cbq : CallbackQuery) (id : FileID)
  | onFileRefreshCBQ (cbq : CallbackQuery) (id : Int)
  | onFileDeleteCBQ (cbq : CallbackQuery) (id : Int)
  | onFileDeleteConfirmCBQ (cbq : CallbackQuery) (id : Int)
  | onFileRestrictionsCBQ (cbq : CallbackQuery) (id : Int)
  | onFileRestrictionsSetChatCBQ (cbq : CallbackQuery) (fileID : FileID) (chatID : ChatID)
  | onSettingsCallbackQuery (cbq : CallbackQuery)
  | onSettingsToggleLongIDsCBQ (cbq : CallbackQuery)
  | onSettingsChannelsAndChats (cbq : CallbackQuery)
  | onSettingsChannelsAndChatsConnect (cbq : CallbackQuery)
  | onSettingsChannelsAndChatsDetails (user : User) (cbq : CallbackQuery) (id : ChatID)
  | onSettingsChannelsAndChatsDelete (user : User) (cbq : CallbackQuery) (id : ChatID)
  | onSettingsChannelsAndChatsDeleteConfirm (user : User) (cbq : CallbackQuery) (id : ChatID)
deriving DecidableEq, Repr

/-- What the embedded code is seen to do, in order. -/
inductive Event
  | stateGet (id : UserID)
  | handler (c : Call)
  | getFileByPublicID (user : User) (publicID : String)
  | send (c : Chattable)
deriving DecidableEq, Repr

/-- The bot and everything around the two source files. `σ` is the state of the
outside world (session store, database, chat platform). -/
structure Bot (σ : Type) where
  /-- Field `revision`. -/
  revision : String
  /-- Field `state`: `state.Store.Get`. -/
  state : UserID → σ → Except Err State × σ
  /-- Field `fileSrv`: `service.File.GetFileByPublicID`. -/
  fileSrv : User → String → σ → Except Err GetFileResult × σ
  /-- Field `client`, as used by `bot.send`. -/
  client : Chattable → σ → Ret × σ
  /-- The handlers `onUpdate` calls that are defined in other files. -/
  handlers : Call → σ → Ret × σ
  /-- Method `detectKind`, defined in another file. -/
  detectKind : Message → Kind
  /-- Method `Command` of `tgbotapi.Message`. -/
  Command : Message → String
  /-- Method `CommandArguments` of `tgbotapi.Message`. -/
  CommandArguments : Message → String
  /-- Constant `refDeepLinkPrefix`, defined in another file. -/
  refDeepLinkPrefix : String
  /-- The regex compiled from constant `callbackSettings`. -/
  cbqSettings : Regexp
  /-- The regex compiled from constant `callbackSettingsLongIDs`. -/
  cbqSettingsToggleLongIDs : Regexp
  /-- The regex compiled from constant `callbackSettingsChannelsAndChats`. -/
  cbqSettingsChannelsAndChats : Regexp
  /-- The regex compiled from constant `callbackSettingsChannelsAndChatsConnect`. -/
  cbqSettingsChannelsAndChatsConnect : Regexp
  /-- Width in bits of Go's `int` on the platform the bot is built for. -/
  intSize : Nat

/-- Outcome of running a piece of the bot: what it returned, the world after
it, and the calls it made. -/
structure Run (σ : Type) where
  ret : Ret
  world : σ
  trace : List Event

/-- The same run, preceded by the events `evs`. -/
def Run.after {σ : Type} (evs : List Event) (r : Run σ) : Run σ :=
  { r with trace := evs ++ r.trace }

/-! ## `bot/handler_common.go` -/

def textHelp : String :=
  "Я помогу тебе поделится любым медиафайлом (фото, видео, документы, аудио, голосовые) с подписчиками твоего канала. Отправь любой из перечисленных файлов, а я в ответ дам тебе ссылку. Так же рекомендую указать подпись, чтобы человек не забыл кто ему это пошарил 🤗.\n\n /settings - для более тонкой настройки"

def textStart : String := "Привет! 👋\n\n" ++ textHelp

def textUnsupportedFileKind : String :=
  "К сожалению, я не поддерживаю данный тип файлов. На данный момент я умею работать только с документами, видео, фото, аудио и голосовыми. Отправь и перешли мне сообщение перечисленного типа, а в ответ я дам тебе ссылку."

/-- Method `bot.send`: hands the message to the client and returns its error. -/
def Bot.send {σ : Type} (bot : Bot σ) (c : Chattable) (w : σ) : Run σ :=
  let r := bot.client c w
  { ret := r.1, world := r.2, trace := [.send c] }

def onHelp {σ : Type} (bot : Bot σ) (msg : Message) (w : σ) : Run σ :=
  let answer := Chattable.newAnswerMsg msg textHelp
  bot.send answer w

def onStart {σ : Type} (bot : Bot σ) (ctx : Context) (msg : Message) (w : σ) : Run σ :=
  let args := bot.CommandArguments msg
  let greet : σ → List Event → Run σ := fun w1 evs =>
    Run.after evs (bot.send (Chattable.newAnswerMsg msg textStart) w1)
  if args ≠ "" ∧ ¬ bot.refDeepLinkPrefix.data.isPrefixOf args.data then
    let user := getUserCtx ctx
    let r := bot.fileSrv user args w
    let evs := [Event.getFileByPublicID user args]
    match r.1 with
    | .error err =>
      if Cause err = Err.ErrFileNotFound then
        let answer := Chattable.newAnswerMsg msg "😐Ничего не знаю о таком файле, проверь ссылку..."
        Run.after evs (bot.send answer r.2)
      else
        { ret := .err (.Wrap err "download file"), world := r.2, trace := evs }
    | .ok result =>
      match result.OwnedFile, result.File, result.ChatSubRequest with
      | some ownedFile, _, _ => Run.after evs (bot.send (.renderOwnedFile msg ownedFile) r.2)
      | none, some file, _ => Run.after evs (bot.send (.renderNotOwnedFile msg file) r.2)
      | none, none, some req => Run.after evs (bot.send (.renderSubRequest msg req) r.2)
      | none, none, none => greet r.2 evs
  else
    greet w []

def onUnsupportedFileKind {σ : Type} (bot : Bot σ) (msg : Message) (w : σ) : Run σ :=
  let answer := Chattable.newReplyMsg msg textUnsupportedFileKind
  bot.send answer w

def onVersion {σ : Type} (bot : Bot σ) (msg : Message) (w : σ) : Run σ :=
  let answer := Chattable.newReplyMsg msg ("\x60" ++ bot.revision ++ "\x60")
  bot.send answer w

/-! ## `bot/bot.go` -/

/-- A call `bot.onX(ctx, ...)` made by `onUpdate`: the four handlers of
`handler_common.go` run as defined above, the others are those of `bot.handlers`. -/
def invoke {σ : Type} (bot : Bot σ) (ctx : Context) (c : Call) (w : σ) : Run σ :=
  Run.after [.handler c]
    (match c with
     | .onStart msg => onStart bot ctx msg w
     | .onHelp msg => onHelp bot msg w
     | .onVersion msg => onVersion bot msg w
     | .onUnsupportedFileKind msg => onUnsupportedFileKind bot msg w
     | c => let r := bot.handlers c w
            { ret := r.1, world := r.2, trace := [] })

/-- The recurring step of the callback cases: `strconv.Atoi(result[i])`, then
`return errors.Wrap(err, message)` on an error, else go on with the integer.
Indexing past the end of `result` panics. -/
def atoiGroup {σ : Type} (bot : Bot σ) (w : σ) (result : List String) (i : Nat)
    (message : String) (k : Int → Run σ) : Run σ :=
  match result[i]? with
  | none => { ret := .panic, world := w, trace := [] }
  | some s =>
    match Atoi bot.intSize s with
    | .error err => { ret := .err (.Wrap err message), world := w, trace := [] }
    | .ok id => k id

/-- Lines 162-287 of `onUpdate`: the switch over the callback patterns. -/
def onUpdateCallbackQuery {σ : Type} (bot : Bot σ) (ctx : Context) (user : User)
    (cbq : CallbackQuery) (w : σ) : Run σ :=
  let data := cbq.Data
  if 0 < (cbqFileRestrictionsChatCheck.FindStringIndex data).length then
    let result := cbqFileRestrictionsChatCheck.FindStringSubmatch data
    atoiGroup bot w result 1 "parse cbq data" fun id =>
      invoke bot ctx (.onFileRestrictionsChatCheck cbq id) w
  else if 0 < (cbqFileRefresh.FindStringIndex data).length then
    let result := cbqFileRefresh.FindStringSubmatch data
    atoiGroup bot w result 1 "parse cbq data" fun id =>
      invoke bot ctx (.onFileRefreshCBQ cbq id) w
  else if 0 < (cbqFileDelete.FindStringIndex data).length then
    let result := cbqFileDelete.FindStringSubmatch data
    atoiGroup bot w result 1 "parse cbq data" fun id =>
      invoke bot ctx (.onFileDeleteCBQ cbq id) w
  else if 0 < (cbqFileDeleteConfirm.FindStringIndex data).length then
    let result := cbqFileDeleteConfirm.FindStringSubmatch data
    atoiGroup bot w result 1 "parse cbq data" fun id =>
      invoke bot ctx (.onFileDeleteConfirmCBQ cbq id) w
  else if 0 < (cbqFileRestrictions.FindStringIndex data).length then
    let result := cbqFileRestrictions.FindStringSubmatch data
    atoiGroup bot w result 1 "parse cbq data" fun id =>
      invoke bot ctx (.onFileRestrictionsCBQ cbq id) w
  else if 0 < (cbqFileRestrictionsChat.FindStringIndex data).length then
    let result := cbqFileRestrictionsChat.FindStringSubmatch data
    atoiGroup bot w result 1 "parse cbq data (file_id)" fun fileID =>
      atoiGroup bot w result 2 "parse cbq data (chat_id)" fun chatID =>
        invoke bot ctx (.onFileRestrictionsSetChatCBQ cbq fileID chatID) w
  else if 0 < (bot.cbqSettings.FindStringIndex data).length then
    invoke bot ctx (.onSettingsCallbackQuery cbq) w
  else if 0 < (bot.cbqSettingsToggleLongIDs.FindStringIndex data).length then
    invoke bot ctx (.onSettingsToggleLongIDsCBQ cbq) w
  else if 0 < (bot.cbqSettingsChannelsAndChats.FindStringIndex data).length then
    invoke bot ctx (.onSettingsChannelsAndChats cbq) w
  else if 0 < (bot.cbqSettingsChannelsAndChatsConnect.FindStringIndex data).length then
    invoke bot ctx (.onSettingsChannelsAndChatsConnect cbq) w
  else if 0 < (cbqSettingsChannelsAndChatsDetails.FindStringIndex data).length then
    let result := cbqSettingsChannelsAndChatsDetails.FindStringSubmatch data
    atoiGroup bot w result 1 "parse cbq data" fun id =>
      invoke bot ctx (.onSettingsChannelsAndChatsDetails user cbq id) w
  else if 0 < (cbqSettingsChannelsAndChatsDelete.FindStringIndex data).length then
    let result := cbqSettingsChannelsAndChatsDelete.FindStringSubmatch data
    atoiGroup bot w result 1 "parse cbq data" fun id =>
      invoke bot ctx (.onSettingsChannelsAndChatsDelete user cbq id) w
  else if 0 < (cbqSettingsChannelsAndChatsDeleteConfirm.FindStringIndex data).length then
    let result := cbqSettingsChannelsAndChatsDeleteConfirm.FindStringSubmatch data
    atoiGroup bot w result 1 "parse cbq data" fun id =>
      invoke bot ctx (.onSettingsChannelsAndChatsDeleteConfirm user cbq id) w
  else
    { ret := .nil, world := w, trace := [] }

/-- Lines 125-158 of `onUpdate`: a message. The session state is read first. -/
def onUpdateMessage {σ : Type} (bot : Bot σ) (ctx : Context) (user : User)
    (msg : Message) (w : σ) : Run σ :=
  let r := bot.state user.ID w
  let evs := [Event.stateGet user.ID]
  match r.1 with
  | .error err => { ret := .err (.Wrap err "get state"), world := r.2, trace := evs }
  | .ok userState =>
    if userState = State.SettingsChannelsAndChatsConnect then
      Run.after evs (invoke bot ctx (.onSettingsChannelsAndChatsConnectState msg) r.2)
    else if bot.Command msg = "start" then
      Run.after evs (invoke bot ctx (.onStart msg) r.2)
    else if bot.Command msg = "help" then
      Run.after evs (invoke bot ctx (.onHelp msg) r.2)
    else if bot.Command msg = "admin" then
      Run.after evs (invoke bot ctx (.onAdmin msg) r.2)
    else if bot.Command msg = "settings" then
      Run.after evs (invoke bot ctx (.onSettings msg) r.2)
    else if bot.Command msg = "version" then
      Run.after evs (invoke bot ctx (.onVersion msg) r.2)
    else if bot.detectKind msg ≠ Kind.KindUnknown then
      Run.after evs (invoke bot ctx (.onFile msg) r.2)
    else
      Run.after evs (invoke bot ctx (.onUnsupportedFileKind msg) r.2)

/-- Lines 122-289 of `onUpdate`: what follows the channel-post check. -/
def onUpdateRest {σ : Type} (bot : Bot σ) (ctx : Context) (update : Update) (w : σ) : Run σ :=
  let user := getUserCtx ctx
  match update.Message with
  | some msg => onUpdateMessage bot ctx user msg w
  | none =>
    match update.CallbackQuery with
    | some cbq => onUpdateCallbackQuery bot ctx user cbq w
    | none => { ret := .nil, world := w, trace := [] }

/-- Method `Bot.onUpdate`. -/
def onUpdate {σ : Type} (bot : Bot σ) (ctx : Context) (update : Update) (w : σ) : Run σ :=
  match update.ChannelPost with
  | some msg =>
    if msg.NewChatTitle ≠ "" then invoke bot ctx (.onChatNewTitle msg) w
    else onUpdateRest bot ctx update w
  | none => onUpdateRest bot ctx update w

/-! ## Reading traces -/

/-- The handler invocations recorded in a trace, in order. -/
def handlerCalls : List Event → List Call
  | [] => []
  | .handler c :: evs => c :: handlerCalls evs
  | _ :: evs => handlerCalls evs

/-- Whether the session store was read in a trace. -/
def readsState (evs : List Event) : Bool :=
  evs.any fun e => match e with
    | .stateGet _ => true
    | _ => false

/-- The messages handed to the client in a trace, in order. -/
def sent : List Event → List Chattable
  | [] => []
  | .send c :: evs => c :: sent evs
  | _ :: evs => sent evs

/-! ## A concrete bot for evaluation

The world is the number of messages the client has sent so far. -/

/-- A command parser good enough for plain ASCII texts: `/name args`. -/
def demoCommand (msg : Message) : String :=
  match msg.Text.data with
  | '/' :: rest => String.mk (rest.takeWhile (fun c => c != ' '))
  | _ => ""

def demoCommandArguments (msg : Message) : String :=
  match msg.Text.data with
  | '/' :: rest => String.mk ((rest.dropWhile (fun c => c != ' ')).drop 1)
  | _ => ""

def demoFileSrv (_user : User) (publicID : String) (w : Nat) : Except Err GetFileResult × Nat :=
  if publicID = "ABC123" then (.ok ⟨some ⟨42⟩, some ⟨42⟩, none⟩, w)
  else if publicID = "XYZ" then (.ok ⟨none, some ⟨7⟩, some ⟨7⟩⟩, w)
  else if publicID = "SUB" then (.ok ⟨none, none, some ⟨9⟩⟩, w)
  else if publicID = "down" then (.error (.Wrap (.other 5) "query"), w)
  else (.error (.Wrap .ErrFileNotFound "query"), w)

def demoBot : Bot Nat where
  revision := "r1"
  state := fun id w => (if id = 1 then .ok .SettingsChannelsAndChatsConnect
                        else if id = 3 then .error (.other 3) else .ok .Empty, w)
  fileSrv := demoFileSrv
  client := fun _ w => (.nil, w + 1)
  handlers := fun c w =>
    match c with
    | .onAdmin _ => (.err (.other 7), w)
    | _ => (.nil, w)
  detectKind := fun msg => if msg.MessageID = 0 then .KindUnknown else .recognised 1
  Command := demoCommand
  CommandArguments := demoCommandArguments
  refDeepLinkPrefix := "ref_"
  cbqSettings := MustCompile ⟨true, [.lit "settings".data], true⟩
  cbqSettingsToggleLongIDs := MustCompile ⟨true, [.lit "settings:long-ids:toggle".data], true⟩
  cbqSettingsChannelsAndChats := MustCompile ⟨true, [.lit "settings:channels-and-chats".data], true⟩
  cbqSettingsChannelsAndChatsConnect :=
    MustCompile ⟨true, [.lit "settings:channels-and-chats:connect".data], true⟩
  intSize := 64

def demoMsg (text : String) : Message :=
  { MessageID := 1, Text := text, NewChatTitle := "" }

def demoCbq (data : String) : CallbackQuery :=
  { ID := "q", Data := data }

/-- `onUpdate` ends by calling the handler `c` in world `w1`, after the events
`pre`, and `c` is the only handler it calls. -/
def RoutesTo {σ : Type} (bot : Bot σ) (ctx : Context) (update : Update) (w : σ)
    (pre : List Event) (c : Call) (w1 : σ) : Prop :=
  onUpdate bot ctx update w = Run.after pre (invoke bot ctx c w1) ∧
    handlerCalls (onUpdate bot ctx update w).trace = [c]

/-! ## Predicates on runs -/

/-- Whether a call is the rename handler. -/
def Call.isChatNewTitle : Call → Bool
  | .onChatNewTitle _ => true
  | _ => false

/-- A run that either called no handler at all, or ended in the call of
one handler satisfying `P`, preceded by events that are not handler calls. -/
def EndsInOneCall {σ : Type} (bot : Bot σ) (ctx : Context) (P : Call → Prop) (r : Run σ) : Prop :=
  handlerCalls r.trace = [] ∨
    ∃ pre c w1, P c ∧ handlerCalls pre = [] ∧ r = Run.after pre (invoke bot ctx c w1)

/-! ## Vocabulary for what the matcher accepts -/

/-- The text a sequence of pieces matches when its groups capture `caps`. -/
def assemble : List Tok → List (List Char) → List Char
  | [], _ => []
  | .lit text :: ts, caps => text ++ assemble ts caps
  | .digits :: ts, [] => assemble ts []
  | .digits :: ts, cap :: caps => cap ++ assemble ts caps

/-- One non-empty string of ASCII digits per capture group. -/
def ValidCaps : List Tok → List (List Char) → Prop
  | [], caps => caps = []
  | .lit _ :: ts, caps => ValidCaps ts caps
  | .digits :: _, [] => False
  | .digits :: ts, cap :: caps =>
    cap ≠ [] ∧ cap.all Char.isDigit = true ∧ ValidCaps ts caps

/-- The text does not start with a digit. -/
def NoDigitHead : List Char → Prop
  | [] => True
  | c :: _ => c.isDigit = false

/-- Every digit group is followed by a literal that starts with a non-digit, or
is the last piece and followed by `rest`, which does not start with a digit. -/
def Separated (rest : List Char) : List Tok → Prop
  | [] => True
  | .lit _ :: ts => Separated rest ts
  | .digits :: [] => NoDigitHead rest
  | .digits :: .lit text :: ts => NoDigitHead text ∧ text ≠ [] ∧ Separated rest ts
  | .digits :: .digits :: _ => False

/-! ## Telling the nine literal patterns apart -/

/-- A non-empty string of ASCII digits. -/
def IsDigits (d : List Char) : Prop :=
  d ≠ [] ∧ d.all Char.isDigit = true

/-- Which `file:` pattern a tail after the digits belongs to (position in the
switch of `onUpdate`). -/
def fileTail (t : List Char) : Option Nat :=
  if t = ":restrictions:chat:check".data then some 0
  else if t = ":refresh".data then some 1
  else if t = ":delete".data then some 2
  else if t = ":delete:confirm".data then some 3
  else if t = ":restrictions".data then some 4
  else none

/-- Which numeric `settings:channels-and-chats:` pattern a tail after the digits
belongs to. -/
def settingsTail (t : List Char) : Option Nat :=
  if t = [] then some 6
  else if t = ":delete".data then some 7
  else if t = ":delete:confirm".data then some 8
  else none

/-- The one literal pattern a text can match, by position in the switch. -/
def classify (s : List Char) : Option Nat :=
  if 5 ≤ s.count ':' then some 5
  else if s.head? = some 'f' then fileTail ((s.drop 5).dropWhile Char.isDigit)
  else settingsTail ((s.drop 28).dropWhile Char.isDigit)

instance (l : List Char) : Decidable (NoDigitHead l) :=
  match l with
  | [] => isTrue trivial
  | c :: _ => inferInstanceAs (Decidable (c.isDigit = false))

/-- The nine patterns with literal regexes, in the order of the switch. -/
def literalPatterns : List Regexp :=
  [cbqFileRestrictionsChatCheck, cbqFileRefresh, cbqFileDelete, cbqFileDeleteConfirm,
   cbqFileRestrictions, cbqFileRestrictionsChat, cbqSettingsChannelsAndChatsDetails,
   cbqSettingsChannelsAndChatsDelete, cbqSettingsChannelsAndChatsDeleteConfirm]

/-! ## The switch over the callback patterns, as a table -/

/-- One case of the switch over the callback patterns: the regex of its guard
and its body. -/
structure CbqCase (σ : Type) where
  re : Regexp
  body : Context → User → CallbackQuery → σ → Run σ

/-- A case whose body parses capture group 1 and calls a handler with it. -/
def oneGroupCase {σ : Type} (bot : Bot σ) (re : Regexp)
    (call : User → CallbackQuery → Int → Call) : CbqCase σ :=
  { re := re
    body := fun ctx user cbq w =>
      atoiGroup bot w (re.FindStringSubmatch cbq.Data) 1 "parse cbq data" fun id =>
        invoke bot ctx (call user cbq id) w }

/-- The case of the chat-subscription toggle: two capture groups. -/
def toggleCase {σ : Type} (bot : Bot σ) : CbqCase σ :=
  { re := cbqFileRestrictionsChat
    body := fun ctx _ cbq w =>
      atoiGroup bot w (cbqFileRestrictionsChat.FindStringSubmatch cbq.Data) 1
        "parse cbq data (file_id)" fun fileID =>
      atoiGroup bot w (cbqFileRestrictionsChat.FindStringSubmatch cbq.Data) 2
        "parse cbq data (chat_id)" fun chatID =>
        invoke bot ctx (.onFileRestrictionsSetChatCBQ cbq fileID chatID) w }

/-- A case whose body calls a handler without reading a capture group. -/
def plainCase {σ : Type} (bot : Bot σ) (re : Regexp) (call : CallbackQuery → Call) :
    CbqCase σ :=
  { re := re
    body := fun ctx _ cbq w => invoke bot ctx (call cbq) w }

/-- The nine cases with literal regexes, in the order of the switch. -/
def literalCases {σ : Type} (bot : Bot σ) : List (CbqCase σ) :=
  [oneGroupCase bot cbqFileRestrictionsChatCheck (fun _ cbq id => .onFileRestrictionsChatCheck cbq id),
   oneGroupCase bot cbqFileRefresh (fun _ cbq id => .onFileRefreshCBQ cbq id),
   oneGroupCase bot cbqFileDelete (fun _ cbq id => .onFileDeleteCBQ cbq id),
   oneGroupCase bot cbqFileDeleteConfirm (fun _ cbq id => .onFileDeleteConfirmCBQ cbq id),
   oneGroupCase bot cbqFileRestrictions (fun _ cbq id => .onFileRestrictionsCBQ cbq id),
   toggleCase bot,
   oneGroupCase bot cbqSettingsChannelsAndChatsDetails
     (fun user cbq id => .onSettingsChannelsAndChatsDetails user cbq id),
   oneGroupCase bot cbqSettingsChannelsAndChatsDelete
     (fun user cbq id => .onSettingsChannelsAndChatsDelete user cbq id),
   oneGroupCase bot cbqSettingsChannelsAndChatsDeleteConfirm
     (fun user cbq id => .onSettingsChannelsAndChatsDeleteConfirm user cbq id)]

/-- The four cases whose regexes are built from constants of another file. -/
def settingsCases {σ : Type} (bot : Bot σ) : List (CbqCase σ) :=
  [plainCase bot bot.cbqSettings (fun cbq => .onSettingsCallbackQuery cbq),
   plainCase bot bot.cbqSettingsToggleLongIDs (fun cbq => .onSettingsToggleLongIDsCBQ cbq),
   plainCase bot bot.cbqSettingsChannelsAndChats (fun cbq => .onSettingsChannelsAndChats cbq),
   plainCase bot bot.cbqSettingsChannelsAndChatsConnect
     (fun cbq => .onSettingsChannelsAndChatsConnect cbq)]

/-- All thirteen cases, in the order of the switch. -/
def cbqTable {σ : Type} (bot : Bot σ) : List (CbqCase σ) :=
  (literalCases bot).take 6 ++ settingsCases bot ++ (literalCases bot).drop 6

/-- The pattern matcher as the design describes it: an ordered table evaluated
top-down, the first entry whose pattern matches decides, no match does nothing. -/
def dispatchTable {σ : Type} (table : List (CbqCase σ)) (ctx : Context) (user : User)
    (cbq : CallbackQuery) (w : σ) : Run σ :=
  match table.find? (fun c => decide (0 < (c.re.FindStringIndex cbq.Data).length)) with
  | some c => c.body ctx user cbq w
  | none => { ret := .nil, world := w, trace := [] }

/-- The digit string `ds` is a decimal form of `n` (leading zeros allowed). -/
def IsDecimalOf (ds : String) (n : Nat) : Prop :=
  IsDigits ds.data ∧ digitsValue ds.data = n

/-- The thirteen patterns of the switch, in its order. -/
def cbqPatterns {σ : Type} (bot : Bot σ) : List Regexp :=
  literalPatterns.take 6 ++
    [bot.cbqSettings, bot.cbqSettingsToggleLongIDs, bot.cbqSettingsChannelsAndChats,
     bot.cbqSettingsChannelsAndChatsConnect] ++
    literalPatterns.drop 6

/-- A run that called nothing and returned an error wrapped by the dispatcher. -/
def FailsWithoutCall {σ : Type} (w : σ) (r : Run σ) : Prop :=
  ∃ cause message, r = { ret := .err (.Wrap cause message), world := w, trace := [] }

/-! ## Anchoring -/

/-- The text `file:<d1>:restrictions:chat-subscription:<d2>:toggl`. -/
def toggleText (d1 d2 : List Char) : List Char :=
  "file:".data ++ d1 ++ ":restrictions:chat-subscription:".data ++ d2 ++ ":toggl".data

/-- The eight anchored patterns with literal regexes, in the order of the switch. -/
def anchoredPatterns : List Regexp :=
  [cbqFileRestrictionsChatCheck, cbqFileRefresh, cbqFileDelete, cbqFileDeleteConfirm,
   cbqFileRestrictions, cbqSettingsChannelsAndChatsDetails,
   cbqSettingsChannelsAndChatsDelete, cbqSettingsChannelsAndChatsDeleteConfirm]

/-- Anchoring of one pattern `re`: it matches only whole texts; a text it
matches is no longer matched with a character added in front, and with a
character added at the end only if `re` is the details pattern and the character
a digit. -/
def AnchoredClaim (re : Regexp) : Prop :=
  ∀ (s : List Char) (c : Char), (re.exec s).isSome = true →
    (∀ m, re.exec s = some m → m.pre = [] ∧ m.whole = s) ∧
    re.exec (c :: s) = none ∧
    ((re.exec (s ++ [c])).isSome = true →
      re = cbqSettingsChannelsAndChatsDetails ∧ c.isDigit = true)

/-! ## Basic facts about runs -/

theorem handlerCalls_append (xs ys : List Event) :
    handlerCalls (xs ++ ys) = handlerCalls xs ++ handlerCalls ys := by
  induction xs with
  | nil => rfl
  | cons e xs ih => cases e <;> simp [handlerCalls, ih]

theorem handlerCalls_send {σ : Type} (bot : Bot σ) (c : Chattable) (w : σ) :
    handlerCalls (bot.send c w).trace = [] := rfl

theorem handlerCalls_onStart {σ : Type} (bot : Bot σ) (ctx : Context) (msg : Message) (w : σ) :
    handlerCalls (onStart bot ctx msg w).trace = [] := by
  unfold onStart
  simp only []
  split
  · split
    · split <;> simp [Run.after, Bot.send, handlerCalls]
    · split <;> simp [Run.after, Bot.send, handlerCalls]
  · simp [Run.after, Bot.send, handlerCalls]

theorem handlerCalls_invoke {σ : Type} (bot : Bot σ) (ctx : Context) (c : Call) (w : σ) :
    handlerCalls (invoke bot ctx c w).trace = [c] := by
  cases c <;>
    simp [invoke, Run.after, handlerCalls, handlerCalls_onStart, onHelp, onVersion,
      onUnsupportedFileKind, Bot.send]

theorem Run.after_nil {σ : Type} (r : Run σ) : Run.after [] r = r := rfl

theorem routesTo_of_eq {σ : Type} {bot : Bot σ} {ctx : Context} {update : Update} {w : σ}
    {pre : List Event} {c : Call} {w1 : σ} (hpre : handlerCalls pre = [])
    (h : onUpdate bot ctx update w = Run.after pre (invoke bot ctx c w1)) :
    RoutesTo bot ctx update w pre c w1 := by
  refine ⟨h, ?_⟩
  rw [h]
  simp [Run.after, handlerCalls_append, hpre, handlerCalls_invoke]

/-- When no channel post changes a title, `onUpdate` is what follows the check. -/
theorem onUpdate_eq_rest {σ : Type} (bot : Bot σ) (ctx : Context) (update : Update) (w : σ)
    (hpost : ∀ post, update.ChannelPost = some post → post.NewChatTitle = "") :
    onUpdate bot ctx update w = onUpdateRest bot ctx update w := by
  unfold onUpdate
  cases h : update.ChannelPost with
  | none => rfl
  | some post => simp [hpost post h]

/-- The message branch once the state lookup gave `st`. -/
theorem onUpdate_message_eq {σ : Type} (bot : Bot σ) (ctx : Context) (update : Update)
    (msg : Message) (w : σ)
    (hmsg : update.Message = some msg)
    (hpost : ∀ post, update.ChannelPost = some post → post.NewChatTitle = "") :
    onUpdate bot ctx update w = onUpdateMessage bot ctx ctx.user msg w := by
  rw [onUpdate_eq_rest bot ctx update w hpost]
  simp [onUpdateRest, hmsg, getUserCtx]

/-! ## C1: a pending flow pre-empts command and content routing -/

/-- C1: for an update that carries a message and no title-changing channel post,
when the session store answers `SettingsChannelsAndChatsConnect` for the resolved
user, `onUpdate` reads the state, calls `onSettingsChannelsAndChatsConnectState`
with that message and nothing else, and returns what that handler returned,
whatever `Command` and `detectKind` say about the message. -/
theorem onUpdate_connect_state_preempts {σ : Type} (bot : Bot σ) (ctx : Context)
    (update : Update) (msg : Message) (w : σ)
    (hmsg : update.Message = some msg)
    (hpost : ∀ post, update.ChannelPost = some post → post.NewChatTitle = "")
    (hstate : (bot.state ctx.user.ID w).1 = .ok State.SettingsChannelsAndChatsConnect) :
    onUpdate bot ctx update w =
      { ret := (bot.handlers (.onSettingsChannelsAndChatsConnectState msg)
                  (bot.state ctx.user.ID w).2).1
        world := (bot.handlers (.onSettingsChannelsAndChatsConnectState msg)
                  (bot.state ctx.user.ID w).2).2
        trace := [.stateGet ctx.user.ID,
                  .handler (.onSettingsChannelsAndChatsConnectState msg)] } := by
  rw [onUpdate_message_eq bot ctx update msg w hmsg hpost]
  simp [onUpdateMessage, hstate, invoke, Run.after]

theorem onUpdate_connect_state_preempts_witness :
    onUpdate demoBot ⟨⟨1⟩⟩ ⟨some (demoMsg "/start ABC123"), none, some (demoCbq "x")⟩ 0 =
      { ret := .nil, world := 0,
        trace := [.stateGet 1,
                  .handler (.onSettingsChannelsAndChatsConnectState (demoMsg "/start ABC123"))] } :=
  onUpdate_connect_state_preempts demoBot ⟨⟨1⟩⟩
    ⟨some (demoMsg "/start ABC123"), none, some (demoCbq "x")⟩ (demoMsg "/start ABC123") 0
    rfl (by simp) rfl

/-! ## C2: command dispatch, then content classification -/

/-- C2: for a message update (no title-changing channel post) whose state lookup
succeeds with a state other than `SettingsChannelsAndChatsConnect`: a command
token `start`, `help`, `admin`, `settings` or `version` routes to exactly
`onStart`, `onHelp`, `onAdmin`, `onSettings`, `onVersion`, whatever `detectKind`
says; any other token routes to `onFile` when `detectKind` gives a kind other
than `KindUnknown` and to `onUnsupportedFileKind` when it gives `KindUnknown`. -/
theorem onUpdate_command_dispatch {σ : Type} (bot : Bot σ) (ctx : Context)
    (update : Update) (msg : Message) (w : σ) (st : State)
    (hmsg : update.Message = some msg)
    (hpost : ∀ post, update.ChannelPost = some post → post.NewChatTitle = "")
    (hstate : (bot.state ctx.user.ID w).1 = .ok st)
    (hst : st ≠ State.SettingsChannelsAndChatsConnect) :
    (bot.Command msg = "start" →
      RoutesTo bot ctx update w [.stateGet ctx.user.ID] (.onStart msg)
        (bot.state ctx.user.ID w).2) ∧
    (bot.Command msg = "help" →
      RoutesTo bot ctx update w [.stateGet ctx.user.ID] (.onHelp msg)
        (bot.state ctx.user.ID w).2) ∧
    (bot.Command msg = "admin" →
      RoutesTo bot ctx update w [.stateGet ctx.user.ID] (.onAdmin msg)
        (bot.state ctx.user.ID w).2) ∧
    (bot.Command msg = "settings" →
      RoutesTo bot ctx update w [.stateGet ctx.user.ID] (.onSettings msg)
        (bot.state ctx.user.ID w).2) ∧
    (bot.Command msg = "version" →
      RoutesTo bot ctx update w [.stateGet ctx.user.ID] (.onVersion msg)
        (bot.state ctx.user.ID w).2) ∧
    (bot.Command msg ∉ ["start", "help", "admin", "settings", "version"] →
      bot.detectKind msg ≠ Kind.KindUnknown →
      RoutesTo bot ctx update w [.stateGet ctx.user.ID] (.onFile msg)
        (bot.state ctx.user.ID w).2) ∧
    (bot.Command msg ∉ ["start", "help", "admin", "settings", "version"] →
      bot.detectKind msg = Kind.KindUnknown →
      RoutesTo bot ctx update w [.stateGet ctx.user.ID] (.onUnsupportedFileKind msg)
        (bot.state ctx.user.ID w).2) := by
  have hrest := onUpdate_message_eq bot ctx update msg w hmsg hpost
  refine ⟨?_, ?_, ?_, ?_, ?_, ?_, ?_⟩
  · intro hc
    refine routesTo_of_eq rfl ?_
    rw [hrest]; simp [onUpdateMessage, hstate, hst, hc]
  · intro hc
    refine routesTo_of_eq rfl ?_
    rw [hrest]; simp [onUpdateMessage, hstate, hst, hc]
  · intro hc
    refine routesTo_of_eq rfl ?_
    rw [hrest]; simp [onUpdateMessage, hstate, hst, hc]
  · intro hc
    refine routesTo_of_eq rfl ?_
    rw [hrest]; simp [onUpdateMessage, hstate, hst, hc]
  · intro hc
    refine routesTo_of_eq rfl ?_
    rw [hrest]; simp [onUpdateMessage, hstate, hst, hc]
  · intro hc hk
    simp only [List.mem_cons, List.mem_singleton, List.not_mem_nil, or_false, not_or] at hc
    refine routesTo_of_eq rfl ?_
    rw [hrest]; simp [onUpdateMessage, hstate, hst, hc, hk]
  · intro hc hk
    simp only [List.mem_cons, List.mem_singleton, List.not_mem_nil, or_false, not_or] at hc
    refine routesTo_of_eq rfl ?_
    rw [hrest]; simp [onUpdateMessage, hstate, hst, hc, hk]

theorem onUpdate_command_dispatch_witness :
    demoBot.detectKind (demoMsg "/admin now") ≠ Kind.KindUnknown ∧
    RoutesTo demoBot ⟨⟨2⟩⟩ ⟨some (demoMsg "/admin now"), none, none⟩ 0
      [.stateGet 2] (.onAdmin (demoMsg "/admin now")) 0 :=
  ⟨by decide,
   (onUpdate_command_dispatch demoBot ⟨⟨2⟩⟩ ⟨some (demoMsg "/admin now"), none, none⟩
      (demoMsg "/admin now") 0 .Empty rfl (by simp) rfl (by decide)).2.2.1 (by decide)⟩

/-! ## The shape of every run of the dispatcher -/

theorem endsInOneCall_invoke {σ : Type} (bot : Bot σ) (ctx : Context) (P : Call → Prop)
    (c : Call) (w : σ) (hc : P c) : EndsInOneCall bot ctx P (invoke bot ctx c w) :=
  Or.inr ⟨[], c, w, hc, rfl, rfl⟩

theorem endsInOneCall_after {σ : Type} (bot : Bot σ) (ctx : Context) (P : Call → Prop)
    (pre : List Event) (c : Call) (w : σ) (hc : P c) (hpre : handlerCalls pre = []) :
    EndsInOneCall bot ctx P (Run.after pre (invoke bot ctx c w)) :=
  Or.inr ⟨pre, c, w, hc, hpre, rfl⟩

theorem endsInOneCall_atoiGroup {σ : Type} (bot : Bot σ) (ctx : Context) (P : Call → Prop)
    (w : σ) (result : List String) (i : Nat) (message : String) (k : Int → Run σ)
    (hk : ∀ id, EndsInOneCall bot ctx P (k id)) :
    EndsInOneCall bot ctx P (atoiGroup bot w result i message k) := by
  unfold atoiGroup
  split
  · exact Or.inl rfl
  · split
    · exact Or.inl rfl
    · exact hk _

theorem endsInOneCall_ite {σ : Type} (bot : Bot σ) (ctx : Context) (P : Call → Prop)
    (c : Prop) [Decidable c] (a b : Run σ)
    (ha : EndsInOneCall bot ctx P a) (hb : EndsInOneCall bot ctx P b) :
    EndsInOneCall bot ctx P (if c then a else b) := by
  by_cases h : c
  · rw [if_pos h]; exact ha
  · rw [if_neg h]; exact hb

theorem endsInOneCall_callbackQuery {σ : Type} (bot : Bot σ) (ctx : Context) (user : User)
    (cbq : CallbackQuery) (w : σ) :
    EndsInOneCall bot ctx (fun c => c.isChatNewTitle = false)
      (onUpdateCallbackQuery bot ctx user cbq w) := by
  unfold onUpdateCallbackQuery
  repeat' apply endsInOneCall_ite
  all_goals first
    | exact Or.inl rfl
    | exact endsInOneCall_invoke bot ctx _ _ _ rfl
    | exact endsInOneCall_atoiGroup bot ctx _ _ _ _ _ _
        (fun _ => endsInOneCall_invoke bot ctx _ _ _ rfl)
    | exact endsInOneCall_atoiGroup bot ctx _ _ _ _ _ _
        (fun _ => endsInOneCall_atoiGroup bot ctx _ _ _ _ _ _
          (fun _ => endsInOneCall_invoke bot ctx _ _ _ rfl))

theorem endsInOneCall_message {σ : Type} (bot : Bot σ) (ctx : Context) (user : User)
    (msg : Message) (w : σ) :
    EndsInOneCall bot ctx (fun c => c.isChatNewTitle = false)
      (onUpdateMessage bot ctx user msg w) := by
  unfold onUpdateMessage
  simp only []
  repeat' split
  all_goals first
    | exact Or.inl rfl
    | exact endsInOneCall_after bot ctx _ _ _ _ rfl rfl

theorem endsInOneCall_rest {σ : Type} (bot : Bot σ) (ctx : Context) (update : Update) (w : σ) :
    EndsInOneCall bot ctx (fun c => c.isChatNewTitle = false)
      (onUpdateRest bot ctx update w) := by
  unfold onUpdateRest
  simp only []
  split
  · exact endsInOneCall_message bot ctx _ _ w
  · split
    · exact endsInOneCall_callbackQuery bot ctx _ _ w
    · exact Or.inl rfl

/-! ## C9: a channel post that changes the title -/

/-- C9: when the channel post is present with a non-empty `NewChatTitle`,
`onUpdate` calls `onChatNewTitle` with that post and nothing else, returns its
result, and does not read the session state, whatever the `Message` and
`CallbackQuery` fields hold; when the post's `NewChatTitle` is empty, no call
of `onChatNewTitle` is made. -/
theorem onUpdate_channel_post_title {σ : Type} (bot : Bot σ) (ctx : Context)
    (update : Update) (post : Message) (w : σ)
    (hpost : update.ChannelPost = some post) :
    (post.NewChatTitle ≠ "" →
      onUpdate bot ctx update w =
        { ret := (bot.handlers (.onChatNewTitle post) w).1
          world := (bot.handlers (.onChatNewTitle post) w).2
          trace := [.handler (.onChatNewTitle post)] } ∧
      readsState (onUpdate bot ctx update w).trace = false) ∧
    (post.NewChatTitle = "" →
      ∀ m, Call.onChatNewTitle m ∉ handlerCalls (onUpdate bot ctx update w).trace) := by
  constructor
  · intro ht
    have h : onUpdate bot ctx update w =
        { ret := (bot.handlers (.onChatNewTitle post) w).1
          world := (bot.handlers (.onChatNewTitle post) w).2
          trace := [.handler (.onChatNewTitle post)] } := by
      simp [onUpdate, hpost, ht, invoke, Run.after]
    exact ⟨h, by rw [h]; rfl⟩
  · intro ht m hm
    have hrest : onUpdate bot ctx update w = onUpdateRest bot ctx update w := by
      apply onUpdate_eq_rest
      intro p hp
      rw [hpost] at hp
      cases hp
      exact ht
    rw [hrest] at hm
    rcases endsInOneCall_rest bot ctx update w with h | ⟨pre, c, w1, hc, hpre, h⟩
    · rw [h] at hm
      cases hm
    · rw [h] at hm
      simp [Run.after, handlerCalls_append, hpre, handlerCalls_invoke] at hm
      subst hm
      simp [Call.isChatNewTitle] at hc

theorem onUpdate_channel_post_title_witness :
    onUpdate demoBot ⟨⟨1⟩⟩
        ⟨some (demoMsg "/start"), some ⟨5, "", "New name"⟩, some (demoCbq "file:1:refresh")⟩ 0 =
      { ret := .nil, world := 0,
        trace := [.handler (.onChatNewTitle ⟨5, "", "New name"⟩)] } :=
  ((onUpdate_channel_post_title demoBot ⟨⟨1⟩⟩
      ⟨some (demoMsg "/start"), some ⟨5, "", "New name"⟩, some (demoCbq "file:1:refresh")⟩
      ⟨5, "", "New name"⟩ 0 rfl).1 (by decide)).1

/-! ## C8: `/start` with a public file identifier -/

/-- C8: for a `/start` message whose argument is non-empty and does not begin
with `refDeepLinkPrefix`, `onStart` asks the file service for that public
identifier and then: a lookup error whose cause is `ErrFileNotFound` makes it
send the "unknown file" answer and return what the send returned; any other
lookup error is returned (wrapped) and nothing is sent; a result with
`OwnedFile` set makes it send the owner's view, whatever the other fields hold;
otherwise a result with `File` set makes it send the delivery view; otherwise a
result with `ChatSubRequest` set makes it send the subscription-request view. -/
theorem onStart_lookup_decides {σ : Type} (bot : Bot σ) (ctx : Context) (msg : Message) (w : σ)
    (hargs : bot.CommandArguments msg ≠ "")
    (href : bot.refDeepLinkPrefix.data.isPrefixOf (bot.CommandArguments msg).data = false) :
    (∀ err, (bot.fileSrv ctx.user (bot.CommandArguments msg) w).1 = .error err →
      Cause err = Err.ErrFileNotFound →
      onStart bot ctx msg w =
        Run.after [.getFileByPublicID ctx.user (bot.CommandArguments msg)]
          (bot.send (.newAnswerMsg msg "😐Ничего не знаю о таком файле, проверь ссылку...")
            (bot.fileSrv ctx.user (bot.CommandArguments msg) w).2)) ∧
    (∀ err, (bot.fileSrv ctx.user (bot.CommandArguments msg) w).1 = .error err →
      Cause err ≠ Err.ErrFileNotFound →
      onStart bot ctx msg w =
        { ret := .err (.Wrap err "download file")
          world := (bot.fileSrv ctx.user (bot.CommandArguments msg) w).2
          trace := [.getFileByPublicID ctx.user (bot.CommandArguments msg)] }) ∧
    (∀ result ownedFile,
      (bot.fileSrv ctx.user (bot.CommandArguments msg) w).1 = .ok result →
      result.OwnedFile = some ownedFile →
      onStart bot ctx msg w =
        Run.after [.getFileByPublicID ctx.user (bot.CommandArguments msg)]
          (bot.send (.renderOwnedFile msg ownedFile)
            (bot.fileSrv ctx.user (bot.CommandArguments msg) w).2)) ∧
    (∀ result file,
      (bot.fileSrv ctx.user (bot.CommandArguments msg) w).1 = .ok result →
      result.OwnedFile = none → result.File = some file →
      onStart bot ctx msg w =
        Run.after [.getFileByPublicID ctx.user (bot.CommandArguments msg)]
          (bot.send (.renderNotOwnedFile msg file)
            (bot.fileSrv ctx.user (bot.CommandArguments msg) w).2)) ∧
    (∀ result req,
      (bot.fileSrv ctx.user (bot.CommandArguments msg) w).1 = .ok result →
      result.OwnedFile = none → result.File = none → result.ChatSubRequest = some req →
      onStart bot ctx msg w =
        Run.after [.getFileByPublicID ctx.user (bot.CommandArguments msg)]
          (bot.send (.renderSubRequest msg req)
            (bot.fileSrv ctx.user (bot.CommandArguments msg) w).2)) := by
  refine ⟨?_, ?_, ?_, ?_, ?_⟩
  · intro err he hc
    simp [onStart, hargs, href, he, hc, getUserCtx]
  · intro err he hc
    simp [onStart, hargs, href, he, hc, getUserCtx]
  · intro result f he ho
    simp [onStart, hargs, href, he, ho, getUserCtx]
  · intro result f he ho hf
    simp [onStart, hargs, href, he, ho, hf, getUserCtx]
  · intro result q he ho hf hq
    simp [onStart, hargs, href, he, ho, hf, hq, getUserCtx]

theorem onStart_lookup_decides_witness :
    onStart demoBot ⟨⟨2⟩⟩ (demoMsg "/start ABC123") 0 =
      { ret := .nil, world := 1,
        trace := [.getFileByPublicID ⟨2⟩ "ABC123",
                  .send (.renderOwnedFile (demoMsg "/start ABC123") ⟨42⟩)] } :=
  (onStart_lookup_decides demoBot ⟨⟨2⟩⟩ (demoMsg "/start ABC123") 0
    (by decide) (by decide)).2.2.1 ⟨some ⟨42⟩, some ⟨42⟩, none⟩ ⟨42⟩ rfl rfl

/-! ## What the matcher accepts -/

theorem matchDigitsMore_sound {α : Type} (k : List Char → List Char → Option α) (r : α) :
    ∀ (s acc : List Char), matchDigitsMore k acc s = some r →
      ∃ ds rest, s = ds ++ rest ∧ ds.all Char.isDigit = true ∧ k (acc ++ ds) rest = some r := by
  intro s
  induction s with
  | nil =>
    intro acc h
    exact ⟨[], [], rfl, rfl, by simpa [matchDigitsMore] using h⟩
  | cons c cs ih =>
    intro acc h
    unfold matchDigitsMore at h
    by_cases hc : c.isDigit = true
    · rw [if_pos hc] at h
      cases hm : matchDigitsMore k (acc ++ [c]) cs with
      | some r1 =>
        rw [hm] at h
        simp only [Option.some.injEq] at h
        subst h
        obtain ⟨ds, rest, hs, hd, hk⟩ := ih (acc ++ [c]) hm
        refine ⟨c :: ds, rest, by simp [hs], by simp [hc, hd], ?_⟩
        simpa using hk
      | none =>
        rw [hm] at h
        exact ⟨[], c :: cs, rfl, rfl, by simpa using h⟩
    · rw [if_neg hc] at h
      exact ⟨[], c :: cs, rfl, rfl, by simpa using h⟩

theorem matchDigitsMore_greedy {α : Type} (k : List Char → List Char → Option α) (r : α)
    (rest : List Char) (hrest : NoDigitHead rest) :
    ∀ (ds acc : List Char), ds.all Char.isDigit = true → k (acc ++ ds) rest = some r →
      matchDigitsMore k acc (ds ++ rest) = some r := by
  intro ds
  induction ds with
  | nil =>
    intro acc _ hk
    simp only [List.append_nil, List.nil_append] at hk ⊢
    cases rest with
    | nil => simpa [matchDigitsMore] using hk
    | cons c cs =>
      have hc : c.isDigit = false := hrest
      simp [matchDigitsMore, hc, hk]
  | cons d ds ih =>
    intro acc hd hk
    simp only [List.all_cons, Bool.and_eq_true] at hd
    have h1 := ih (acc ++ [d]) hd.2 (by simpa using hk)
    simp [matchDigitsMore, hd.1, h1]

theorem matchToks_sound (eol : Bool) :
    ∀ (toks : List Tok) (s : List Char) (caps : List (List Char)) (rest : List Char),
      matchToks eol toks s = some (caps, rest) →
      s = assemble toks caps ++ rest ∧ ValidCaps toks caps ∧ (eol = true → rest = []) := by
  intro toks
  induction toks with
  | nil =>
    intro s caps rest h
    unfold matchToks at h
    split at h
    · cases h
    · rename_i hcond
      simp only [Option.some.injEq, Prod.mk.injEq] at h
      obtain ⟨h1, h2⟩ := h
      subst h1; subst h2
      refine ⟨rfl, rfl, ?_⟩
      intro he
      simpa [he] using hcond
  | cons t ts ih =>
    intro s caps rest h
    cases t with
    | lit text =>
      unfold matchToks at h
      split at h
      · rename_i hp
        obtain ⟨h1, h2, h3⟩ := ih _ _ _ h
        have hpre : text <+: s := List.isPrefixOf_iff_prefix.mp hp
        obtain ⟨u, hu⟩ := hpre
        subst hu
        simp only [List.drop_left] at h1
        refine ⟨?_, h2, h3⟩
        simp [assemble, h1]
      · cases h
    | digits =>
      cases s with
      | nil => simp [matchToks] at h
      | cons c cs =>
        unfold matchToks at h
        split at h
        · rename_i hc
          obtain ⟨ds, rest1, hs, hd, hk⟩ := matchDigitsMore_sound _ _ _ _ h
          simp only [Option.map_eq_some', Prod.mk.injEq] at hk
          obtain ⟨⟨caps1, rest2⟩, hm, hcaps, hrest⟩ := hk
          simp only at hcaps hrest
          subst hcaps; subst hrest
          obtain ⟨h1, h2, h3⟩ := ih _ _ _ hm
          refine ⟨?_, ⟨by simp, by simp [hc, hd], h2⟩, h3⟩
          simp [assemble, hs, h1]
        · cases h

theorem noDigitHead_append {a : List Char} (b : List Char) (ha : NoDigitHead a) (hne : a ≠ []) :
    NoDigitHead (a ++ b) := by
  cases a with
  | nil => exact absurd rfl hne
  | cons c cs => exact ha

theorem matchToks_complete (eol : Bool) (rest : List Char) (hrest : eol = true → rest = []) :
    ∀ (toks : List Tok) (caps : List (List Char)),
      ValidCaps toks caps → Separated rest toks →
      matchToks eol toks (assemble toks caps ++ rest) = some (caps, rest) := by
  intro toks
  induction toks with
  | nil =>
    intro caps hv _
    have hc : caps = [] := hv
    subst hc
    cases eol with
    | false => simp [matchToks, assemble]
    | true => simp [matchToks, assemble, hrest rfl]
  | cons t ts ih =>
    intro caps hv hsep
    cases t with
    | lit text =>
      have h := ih caps hv hsep
      simp [matchToks, assemble, List.append_assoc, h]
    | digits =>
      cases caps with
      | nil => exact absurd hv (by simp [ValidCaps])
      | cons cap caps =>
        obtain ⟨hne, hd, hv1⟩ := hv
        cases cap with
        | nil => exact absurd rfl hne
        | cons c cs =>
          simp only [List.all_cons, Bool.and_eq_true] at hd
          have hsep1 : Separated rest ts ∧ NoDigitHead (assemble ts caps ++ rest) := by
            cases ts with
            | nil => exact ⟨trivial, by simpa [assemble] using hsep⟩
            | cons t2 ts2 =>
              cases t2 with
              | lit text =>
                obtain ⟨hn, hne2, hs2⟩ := hsep
                refine ⟨hs2, ?_⟩
                simp only [assemble, List.append_assoc]
                exact noDigitHead_append _ hn hne2
              | digits => exact absurd hsep (by simp [Separated])
          have h := ih caps hv1 hsep1.1
          have hgreedy := matchDigitsMore_greedy
            (fun cap rest => Option.map (fun r => (cap :: r.1, r.2)) (matchToks eol ts rest))
            ((c :: cs) :: caps, rest) _ hsep1.2 cs [c] hd.2 (by simp [h])
          have hshape : assemble (Tok.digits :: ts) ((c :: cs) :: caps) ++ rest =
              c :: (cs ++ (assemble ts caps ++ rest)) := by
            simp [assemble]
          rw [hshape]
          simp only [matchToks, hd.1, if_true]
          exact hgreedy

/-! ## Anchored and unanchored search -/

theorem matchHere_eq_some (p : Pattern) (pre s : List Char) (m : Match) :
    matchHere p pre s = some m ↔
      ∃ caps rest, matchToks p.eol p.toks s = some (caps, rest) ∧
        m = { pre := pre, whole := s.take (s.length - rest.length), caps := caps } := by
  unfold matchHere
  constructor
  · intro h
    simp only [Option.map_eq_some'] at h
    obtain ⟨⟨caps, rest⟩, h1, h2⟩ := h
    exact ⟨caps, rest, h1, h2.symm⟩
  · rintro ⟨caps, rest, h1, h2⟩
    simp [h1, h2]

theorem matchHere_eq_none (p : Pattern) (pre s : List Char) :
    matchHere p pre s = none ↔ matchToks p.eol p.toks s = none := by
  simp [matchHere]

theorem searchFrom_sound (p : Pattern) (m : Match) :
    ∀ (s pre : List Char), searchFrom p pre s = some m →
      ∃ a b, s = a ++ b ∧ matchHere p (pre ++ a) b = some m ∧
        ∀ a1 b1, s = a1 ++ b1 → a1.length < a.length → matchToks p.eol p.toks b1 = none := by
  intro s
  induction s with
  | nil =>
    intro pre h
    refine ⟨[], [], rfl, by simpa [searchFrom] using h, ?_⟩
    intro a1 b1 _ hlt
    simp at hlt
  | cons c cs ih =>
    intro pre h
    unfold searchFrom at h
    cases hm : matchHere p pre (c :: cs) with
    | some m1 =>
      rw [hm] at h
      simp only [Option.some.injEq] at h
      subst h
      refine ⟨[], c :: cs, rfl, by simpa using hm, ?_⟩
      intro a1 b1 _ hlt
      simp at hlt
    | none =>
      rw [hm] at h
      obtain ⟨a, b, hs, hmatch, hmin⟩ := ih (pre ++ [c]) h
      refine ⟨c :: a, b, by simp [hs], by simpa using hmatch, ?_⟩
      intro a1 b1 hs1 hlt
      cases a1 with
      | nil =>
        simp only [List.nil_append] at hs1
        subst hs1
        exact (matchHere_eq_none p pre _).mp hm
      | cons x a2 =>
        simp only [List.cons_append, List.cons.injEq] at hs1
        apply hmin a2 b1 hs1.2
        simpa using hlt

theorem searchFrom_first (p : Pattern) (m : Match) :
    ∀ (a b pre : List Char), matchHere p (pre ++ a) b = some m →
      (∀ a1 b1, a ++ b = a1 ++ b1 → a1.length < a.length → matchToks p.eol p.toks b1 = none) →
      searchFrom p pre (a ++ b) = some m := by
  intro a
  induction a with
  | nil =>
    intro b pre h _
    simp only [List.append_nil, List.nil_append] at h ⊢
    cases b with
    | nil => simpa [searchFrom] using h
    | cons c cs => simp [searchFrom, h]
  | cons x a ih =>
    intro b pre h hmin
    have h0 : matchHere p pre (x :: (a ++ b)) = none := by
      rw [matchHere_eq_none]
      exact hmin [] (x :: (a ++ b)) rfl (by simp)
    have hstep : searchFrom p pre (x :: (a ++ b)) = searchFrom p (pre ++ [x]) (a ++ b) := by
      rw [searchFrom, h0]
    rw [List.cons_append, hstep]
    apply ih b (pre ++ [x]) (by simpa using h)
    intro a1 b1 hs hlt
    exact hmin (x :: a1) b1 (by simp [hs]) (by simpa using hlt)

/-- An anchored pattern matches only the whole text, and then the text is the
pattern's pieces with digits filled in. -/
theorem anchored_sound (toks : List Tok) (s : List Char) (m : Match)
    (h : (MustCompile ⟨true, toks, true⟩).exec s = some m) :
    ∃ caps, s = assemble toks caps ∧ ValidCaps toks caps ∧ m = ⟨[], s, caps⟩ := by
  simp only [MustCompile, if_true] at h
  rw [matchHere_eq_some] at h
  obtain ⟨caps, rest, h1, h2⟩ := h
  obtain ⟨hs, hv, hr⟩ := matchToks_sound _ _ _ _ _ h1
  have hrest : rest = [] := hr rfl
  subst hrest
  refine ⟨caps, by simpa using hs, hv, ?_⟩
  simpa using h2

theorem anchored_complete (toks : List Tok) (caps : List (List Char))
    (hv : ValidCaps toks caps) (hsep : Separated [] toks) :
    (MustCompile ⟨true, toks, true⟩).exec (assemble toks caps) =
      some ⟨[], assemble toks caps, caps⟩ := by
  simp only [MustCompile, if_true]
  rw [matchHere_eq_some]
  refine ⟨caps, [], ?_, by simp⟩
  have := matchToks_complete true [] (fun _ => rfl) toks caps hv hsep
  simpa using this

/-- An unanchored pattern with an open end matches the leftmost place where its
pieces, with digits filled in, occur in the text. -/
theorem unanchored_sound (toks : List Tok) (s : List Char) (m : Match)
    (h : (MustCompile ⟨false, toks, false⟩).exec s = some m) :
    ∃ a caps rest, s = a ++ assemble toks caps ++ rest ∧ ValidCaps toks caps ∧
      m = ⟨a, assemble toks caps, caps⟩ ∧
      ∀ a1 caps1 rest1, s = a1 ++ assemble toks caps1 ++ rest1 → ValidCaps toks caps1 →
        Separated rest1 toks → a.length ≤ a1.length := by
  simp only [MustCompile] at h
  obtain ⟨a, b, hs, hm, hmin⟩ := searchFrom_sound _ _ _ _ h
  rw [matchHere_eq_some] at hm
  obtain ⟨caps, rest, h1, h2⟩ := hm
  obtain ⟨hb, hv, _⟩ := matchToks_sound _ _ _ _ _ h1
  refine ⟨a, caps, rest, by simp [hs, hb], hv, ?_, ?_⟩
  · rw [h2, hb]
    simp
  · intro a1 caps1 rest1 hs1 hv1 hsep1
    by_contra hlt
    have hnone := hmin a1 (assemble toks caps1 ++ rest1) (by simp [hs1]) (by omega)
    have hsome := matchToks_complete false rest1 (by simp) toks caps1 hv1 hsep1
    simp only at hnone
    rw [hsome] at hnone
    cases hnone

theorem unanchored_complete (toks : List Tok) (a rest : List Char) (caps : List (List Char))
    (hv : ValidCaps toks caps) (hsep : Separated rest toks)
    (hmin : ∀ a1 caps1 rest1, a ++ assemble toks caps ++ rest = a1 ++ assemble toks caps1 ++ rest1 →
      ValidCaps toks caps1 → a.length ≤ a1.length) :
    (MustCompile ⟨false, toks, false⟩).exec (a ++ assemble toks caps ++ rest) =
      some ⟨a, assemble toks caps, caps⟩ := by
  simp only [MustCompile]
  rw [List.append_assoc]
  apply searchFrom_first
  · rw [matchHere_eq_some]
    refine ⟨caps, rest, matchToks_complete false rest (by simp) toks caps hv hsep, ?_⟩
    simp
  · intro a1 b1 hs hlt
    cases hnone : matchToks false toks b1 with
    | none => rfl
    | some r =>
      obtain ⟨caps1, rest1⟩ := r
      obtain ⟨hb, hv1, _⟩ := matchToks_sound _ _ _ _ _ hnone
      have := hmin a1 caps1 rest1 (by rw [List.append_assoc, hs, hb]; simp) hv1
      omega

/-! ## The nine literal patterns -/

theorem validCaps_one (a b : List Char) (caps : List (List Char)) :
    ValidCaps [.lit a, .digits, .lit b] caps ↔ ∃ d, IsDigits d ∧ caps = [d] := by
  cases caps with
  | nil => simp [ValidCaps]
  | cons d caps =>
    simp only [ValidCaps, IsDigits, List.cons.injEq]
    constructor
    · rintro ⟨h1, h2, h3⟩
      exact ⟨d, ⟨h1, h2⟩, rfl, h3⟩
    · rintro ⟨d1, ⟨h1, h2⟩, h3, h4⟩
      subst h3
      exact ⟨h1, h2, h4⟩

theorem validCaps_last (a : List Char) (caps : List (List Char)) :
    ValidCaps [.lit a, .digits] caps ↔ ∃ d, IsDigits d ∧ caps = [d] := by
  cases caps with
  | nil => simp [ValidCaps]
  | cons d caps =>
    simp only [ValidCaps, IsDigits, List.cons.injEq]
    constructor
    · rintro ⟨h1, h2, h3⟩
      exact ⟨d, ⟨h1, h2⟩, rfl, h3⟩
    · rintro ⟨d1, ⟨h1, h2⟩, h3, h4⟩
      subst h3
      exact ⟨h1, h2, h4⟩

theorem validCaps_two (a b c : List Char) (caps : List (List Char)) :
    ValidCaps [.lit a, .digits, .lit b, .digits, .lit c] caps ↔
      ∃ d1 d2, IsDigits d1 ∧ IsDigits d2 ∧ caps = [d1, d2] := by
  cases caps with
  | nil => simp [ValidCaps]
  | cons d1 caps =>
    cases caps with
    | nil => simp [ValidCaps]
    | cons d2 caps =>
      simp only [ValidCaps, IsDigits, List.cons.injEq]
      constructor
      · rintro ⟨h1, h2, h3, h4, h5⟩
        exact ⟨d1, d2, ⟨h1, h2⟩, ⟨h3, h4⟩, rfl, rfl, h5⟩
      · rintro ⟨e1, e2, ⟨h1, h2⟩, ⟨h3, h4⟩, h5, h6, h7⟩
        subst h5; subst h6
        exact ⟨h1, h2, h3, h4, h7⟩

/-- A pattern `^a(\d+)b$`, `b` starting with a non-digit, matches exactly the
texts `a ++ d ++ b` with `d` a non-empty digit string, and captures `d`. -/
theorem exec_anchored_mid (a b s : List Char) (m : Match) (hb : NoDigitHead b) (hne : b ≠ []) :
    (MustCompile ⟨true, [.lit a, .digits, .lit b], true⟩).exec s = some m ↔
      ∃ d, IsDigits d ∧ s = a ++ d ++ b ∧ m = ⟨[], s, [d]⟩ := by
  constructor
  · intro h
    obtain ⟨caps, hs, hv, hm⟩ := anchored_sound _ _ _ h
    obtain ⟨d, hd, hc⟩ := (validCaps_one a b caps).mp hv
    subst hc
    exact ⟨d, hd, by simpa [assemble] using hs, hm⟩
  · rintro ⟨d, hd, hs, hm⟩
    have h := anchored_complete [.lit a, .digits, .lit b] [d]
      ((validCaps_one a b [d]).mpr ⟨d, hd, rfl⟩) ⟨hb, hne, trivial⟩
    have hs1 : assemble [.lit a, .digits, .lit b] [d] = s := by simp [assemble, hs]
    rw [hs1] at h
    rw [h, hm]

/-- The pattern `^a(\d+)$` matches exactly the texts `a ++ d` with `d` a
non-empty digit string, and captures `d`. -/
theorem exec_anchored_last (a s : List Char) (m : Match) :
    (MustCompile ⟨true, [.lit a, .digits], true⟩).exec s = some m ↔
      ∃ d, IsDigits d ∧ s = a ++ d ∧ m = ⟨[], s, [d]⟩ := by
  constructor
  · intro h
    obtain ⟨caps, hs, hv, hm⟩ := anchored_sound _ _ _ h
    obtain ⟨d, hd, hc⟩ := (validCaps_last a caps).mp hv
    subst hc
    exact ⟨d, hd, by simpa [assemble] using hs, hm⟩
  · rintro ⟨d, hd, hs, hm⟩
    have h := anchored_complete [.lit a, .digits] [d]
      ((validCaps_last a [d]).mpr ⟨d, hd, rfl⟩) trivial
    have hs1 : assemble [.lit a, .digits] [d] = s := by simp [assemble, hs]
    rw [hs1] at h
    rw [h, hm]

theorem count_colon_digits (d : List Char) (hd : d.all Char.isDigit = true) :
    d.count ':' = 0 := by
  rw [List.count_eq_zero]
  intro hmem
  have := List.all_eq_true.mp hd _ hmem
  exact absurd this (by decide)

theorem dropWhile_digits_append (d b : List Char) (hd : d.all Char.isDigit = true)
    (hb : NoDigitHead b) : (d ++ b).dropWhile Char.isDigit = b := by
  induction d with
  | nil =>
    cases b with
    | nil => rfl
    | cons c cs =>
      have hc : c.isDigit = false := hb
      simp [List.dropWhile, hc]
  | cons x d ih =>
    simp only [List.all_cons, Bool.and_eq_true] at hd
    simp [List.dropWhile, hd.1, ih hd.2]

theorem takeWhile_digits_append (d b : List Char) (hd : d.all Char.isDigit = true)
    (hb : NoDigitHead b) : (d ++ b).takeWhile Char.isDigit = d := by
  induction d with
  | nil =>
    cases b with
    | nil => rfl
    | cons c cs =>
      have hc : c.isDigit = false := hb
      simp [List.takeWhile, hc]
  | cons x d ih =>
    simp only [List.all_cons, Bool.and_eq_true] at hd
    simp [List.takeWhile, hd.1, ih hd.2]

theorem classify_file (d b : List Char) (hd : IsDigits d) (hb : NoDigitHead b)
    (hcount : b.count ':' ≤ 3) :
    classify ("file:".data ++ d ++ b) = fileTail b := by
  have h1 : ("file:".data ++ d ++ b).count ':' = 1 + b.count ':' := by
    rw [List.count_append, List.count_append, count_colon_digits d hd.2]
    rfl
  have h2 : ("file:".data ++ d ++ b).head? = some 'f' := rfl
  have h3 : ("file:".data ++ d ++ b).drop 5 = d ++ b := by
    rw [List.append_assoc]
    exact List.drop_left' rfl
  unfold classify
  rw [h1, h2, h3, dropWhile_digits_append d b hd.2 hb, if_neg (by omega), if_pos rfl]

theorem classify_settings (d b : List Char) (hd : IsDigits d) (hb : NoDigitHead b)
    (hcount : b.count ':' ≤ 2) :
    classify ("settings:channels-and-chats:".data ++ d ++ b) = settingsTail b := by
  have h1 : ("settings:channels-and-chats:".data ++ d ++ b).count ':' = 2 + b.count ':' := by
    rw [List.count_append, List.count_append, count_colon_digits d hd.2]
    rfl
  have h2 : ("settings:channels-and-chats:".data ++ d ++ b).head? = some 's' := rfl
  have h3 : ("settings:channels-and-chats:".data ++ d ++ b).drop 28 = d ++ b := by
    rw [List.append_assoc]
    exact List.drop_left' rfl
  unfold classify
  rw [h1, h2, h3, dropWhile_digits_append d b hd.2 hb, if_neg (by omega),
    if_neg (by decide)]

theorem classify_file_pattern (b s : List Char) (hb : NoDigitHead b) (hne : b ≠ [])
    (hcount : b.count ':' ≤ 3)
    (h : ((MustCompile ⟨true, [.lit "file:".data, .digits, .lit b], true⟩).exec s).isSome) :
    classify s = fileTail b := by
  obtain ⟨m, hm⟩ := Option.isSome_iff_exists.mp h
  obtain ⟨d, hd, hs, _⟩ := (exec_anchored_mid _ _ _ _ hb hne).mp hm
  rw [hs]
  exact classify_file d b hd hb hcount

theorem classify_settings_pattern (b s : List Char) (hb : NoDigitHead b) (hne : b ≠ [])
    (hcount : b.count ':' ≤ 2)
    (h : ((MustCompile ⟨true, [.lit "settings:channels-and-chats:".data, .digits, .lit b],
      true⟩).exec s).isSome) :
    classify s = settingsTail b := by
  obtain ⟨m, hm⟩ := Option.isSome_iff_exists.mp h
  obtain ⟨d, hd, hs, _⟩ := (exec_anchored_mid _ _ _ _ hb hne).mp hm
  rw [hs]
  exact classify_settings d b hd hb hcount

theorem classify_details (s : List Char)
    (h : (cbqSettingsChannelsAndChatsDetails.exec s).isSome) : classify s = some 6 := by
  obtain ⟨m, hm⟩ := Option.isSome_iff_exists.mp h
  obtain ⟨d, hd, hs, _⟩ := (exec_anchored_last _ _ _).mp hm
  have := classify_settings d [] hd trivial (by decide)
  rw [List.append_nil] at this
  rw [hs, this]
  rfl

/-- The toggle pattern matches exactly when its template occurs in the text; the
match is the leftmost occurrence and captures its two digit strings. -/
theorem exec_toggle_sound (s : List Char) (m : Match)
    (h : cbqFileRestrictionsChat.exec s = some m) :
    ∃ a d1 d2 rest, IsDigits d1 ∧ IsDigits d2 ∧
      s = a ++ ("file:".data ++ d1 ++ ":restrictions:chat-subscription:".data ++ d2 ++
        ":toggl".data) ++ rest ∧
      m = ⟨a, "file:".data ++ d1 ++ ":restrictions:chat-subscription:".data ++ d2 ++
        ":toggl".data, [d1, d2]⟩ := by
  obtain ⟨a, caps, rest, hs, hv, hm, _⟩ := unanchored_sound _ _ _ h
  obtain ⟨d1, d2, hd1, hd2, hc⟩ := (validCaps_two _ _ _ caps).mp hv
  subst hc
  refine ⟨a, d1, d2, rest, hd1, hd2, ?_, ?_⟩
  · rw [hs]; simp [assemble]
  · rw [hm]; simp [assemble]

theorem classify_toggle (s : List Char) (h : (cbqFileRestrictionsChat.exec s).isSome) :
    classify s = some 5 := by
  obtain ⟨m, hm⟩ := Option.isSome_iff_exists.mp h
  obtain ⟨a, d1, d2, rest, hd1, hd2, hs, _⟩ := exec_toggle_sound s m hm
  have hcount : 5 ≤ s.count ':' := by
    rw [hs]
    repeat rw [List.count_append]
    rw [count_colon_digits d1 hd1.2, count_colon_digits d2 hd2.2]
    have e1 : ("file:".data).count ':' = 1 := rfl
    have e2 : (":restrictions:chat-subscription:".data).count ':' = 3 := rfl
    have e3 : (":toggl".data).count ':' = 1 := rfl
    omega
  simp [classify, hcount]

theorem classify_of_matches (s : List Char) (i : Nat) (re : Regexp)
    (hre : literalPatterns[i]? = some re) (h : (re.exec s).isSome) : classify s = some i := by
  have hi : i < 9 := by
    by_contra hge
    have : literalPatterns[i]? = none := List.getElem?_eq_none (by simp [literalPatterns]; omega)
    rw [this] at hre
    cases hre
  interval_cases i <;> simp only [literalPatterns, List.getElem?_cons_zero,
    List.getElem?_cons_succ, Option.some.injEq] at hre <;> subst hre
  · exact classify_file_pattern ":restrictions:chat:check".data s (by decide) (by decide)
      (by decide) h
  · exact classify_file_pattern ":refresh".data s (by decide) (by decide) (by decide) h
  · exact classify_file_pattern ":delete".data s (by decide) (by decide) (by decide) h
  · exact classify_file_pattern ":delete:confirm".data s (by decide) (by decide) (by decide) h
  · exact classify_file_pattern ":restrictions".data s (by decide) (by decide) (by decide) h
  · exact classify_toggle s h
  · exact classify_details s h
  · exact classify_settings_pattern ":delete".data s (by decide) (by decide) (by decide) h
  · exact classify_settings_pattern ":delete:confirm".data s (by decide) (by decide)
      (by decide) h

/-- No text matches two of the nine literal patterns. -/
theorem literalPatterns_disjoint (s : List Char) (i j : Nat) (re1 re2 : Regexp)
    (h1 : literalPatterns[i]? = some re1) (h2 : literalPatterns[j]? = some re2)
    (m1 : (re1.exec s).isSome) (m2 : (re2.exec s).isSome) : i = j := by
  have e1 := classify_of_matches s i re1 h1 m1
  have e2 := classify_of_matches s j re2 h2 m2
  rw [e1] at e2
  exact Option.some.inj e2

/-! ## Guards, integer parsing, and the switch as a table -/

theorem guard_iff (re : Regexp) (s : String) :
    0 < (re.FindStringIndex s).length ↔ (re.exec s.data).isSome = true := by
  unfold Regexp.FindStringIndex
  cases re.exec s.data <;> simp

theorem findStringSubmatch_of_exec (re : Regexp) (s : String) (m : Match)
    (h : re.exec s.data = some m) :
    re.FindStringSubmatch s = (m.whole :: m.caps).map String.mk := by
  simp [Regexp.FindStringSubmatch, h]

theorem atoi_digits (intSize : Nat) (d : List Char) (hd : IsDigits d)
    (hfit : digitsValue d < 2 ^ (intSize - 1)) :
    Atoi intSize (String.mk d) = .ok (digitsValue d : Int) := by
  obtain ⟨hne, hall⟩ := hd
  cases d with
  | nil => exact absurd rfl hne
  | cons c cs =>
    have hc : c.isDigit = true := by
      simp only [List.all_cons, Bool.and_eq_true] at hall
      exact hall.1
    have hm : c ≠ '-' := by
      intro h; subst h; exact absurd hc (by decide)
    have hp : c ≠ '+' := by
      intro h; subst h; exact absurd hc (by decide)
    have hlt : ¬ 2 ^ (intSize - 1) ≤ digitsValue (c :: cs) := by omega
    simp [Atoi, hm, hp, hall, hlt]

theorem atoi_digits_range (intSize : Nat) (d : List Char) (hd : IsDigits d)
    (hbig : 2 ^ (intSize - 1) ≤ digitsValue d) :
    Atoi intSize (String.mk d) = .error (.NumError "Atoi" (String.mk d) .ErrRange) := by
  obtain ⟨hne, hall⟩ := hd
  cases d with
  | nil => exact absurd rfl hne
  | cons c cs =>
    have hc : c.isDigit = true := by
      simp only [List.all_cons, Bool.and_eq_true] at hall
      exact hall.1
    have hm : c ≠ '-' := by
      intro h; subst h; exact absurd hc (by decide)
    have hp : c ≠ '+' := by
      intro h; subst h; exact absurd hc (by decide)
    simp [Atoi, hm, hp, hall, hbig]

theorem dispatchTable_nil {σ : Type} (ctx : Context) (user : User)
    (cbq : CallbackQuery) (w : σ) :
    dispatchTable ([] : List (CbqCase σ)) ctx user cbq w =
      { ret := .nil, world := w, trace := [] } := rfl

theorem dispatchTable_cons {σ : Type} (c : CbqCase σ) (cs : List (CbqCase σ)) (ctx : Context)
    (user : User) (cbq : CallbackQuery) (w : σ) :
    dispatchTable (c :: cs) ctx user cbq w =
      if 0 < (c.re.FindStringIndex cbq.Data).length then c.body ctx user cbq w
      else dispatchTable cs ctx user cbq w := by
  unfold dispatchTable
  by_cases h : 0 < (c.re.FindStringIndex cbq.Data).length
  · rw [if_pos h, List.find?_cons_of_pos _ (by simpa using h)]
  · rw [if_neg h, List.find?_cons_of_neg _ (by simpa using h)]

/-- The switch of `onUpdate` is the table evaluated top-down. -/
theorem onUpdateCallbackQuery_eq_table {σ : Type} (bot : Bot σ) (ctx : Context) (user : User)
    (cbq : CallbackQuery) (w : σ) :
    onUpdateCallbackQuery bot ctx user cbq w = dispatchTable (cbqTable bot) ctx user cbq w := by
  have htable : cbqTable bot =
      [oneGroupCase bot cbqFileRestrictionsChatCheck
         (fun _ cbq id => .onFileRestrictionsChatCheck cbq id),
       oneGroupCase bot cbqFileRefresh (fun _ cbq id => .onFileRefreshCBQ cbq id),
       oneGroupCase bot cbqFileDelete (fun _ cbq id => .onFileDeleteCBQ cbq id),
       oneGroupCase bot cbqFileDeleteConfirm (fun _ cbq id => .onFileDeleteConfirmCBQ cbq id),
       oneGroupCase bot cbqFileRestrictions (fun _ cbq id => .onFileRestrictionsCBQ cbq id),
       toggleCase bot,
       plainCase bot bot.cbqSettings (fun cbq => .onSettingsCallbackQuery cbq),
       plainCase bot bot.cbqSettingsToggleLongIDs (fun cbq => .onSettingsToggleLongIDsCBQ cbq),
       plainCase bot bot.cbqSettingsChannelsAndChats
         (fun cbq => .onSettingsChannelsAndChats cbq),
       plainCase bot bot.cbqSettingsChannelsAndChatsConnect
         (fun cbq => .onSettingsChannelsAndChatsConnect cbq),
       oneGroupCase bot cbqSettingsChannelsAndChatsDetails
         (fun user cbq id => .onSettingsChannelsAndChatsDetails user cbq id),
       oneGroupCase bot cbqSettingsChannelsAndChatsDelete
         (fun user cbq id => .onSettingsChannelsAndChatsDelete user cbq id),
       oneGroupCase bot cbqSettingsChannelsAndChatsDeleteConfirm
         (fun user cbq id => .onSettingsChannelsAndChatsDeleteConfirm user cbq id)] := rfl
  rw [htable]
  repeat rw [dispatchTable_cons]
  rw [dispatchTable_nil]
  rfl

theorem literalCases_re {σ : Type} (bot : Bot σ) :
    (literalCases bot).map CbqCase.re = literalPatterns := rfl

/-- Two literal cases whose guards hold on the same payload sit at the same
position of the switch. -/
theorem literalCases_index_unique {σ : Type} (bot : Bot σ) (data : String) (i j : Nat)
    (c1 c2 : CbqCase σ)
    (hi : (literalCases bot)[i]? = some c1) (hj : (literalCases bot)[j]? = some c2)
    (g1 : 0 < (c1.re.FindStringIndex data).length)
    (g2 : 0 < (c2.re.FindStringIndex data).length) : i = j := by
  have ri : literalPatterns[i]? = some c1.re := by
    rw [← literalCases_re bot, List.getElem?_map, hi]; rfl
  have rj : literalPatterns[j]? = some c2.re := by
    rw [← literalCases_re bot, List.getElem?_map, hj]; rfl
  exact literalPatterns_disjoint data.data i j _ _ ri rj
    ((guard_iff _ _).mp g1) ((guard_iff _ _).mp g2)

/-- At most one of the nine literal cases has a guard that holds. -/
theorem literalCases_unique {σ : Type} (bot : Bot σ) (data : String) (c1 c2 : CbqCase σ)
    (h1 : c1 ∈ literalCases bot) (h2 : c2 ∈ literalCases bot)
    (g1 : 0 < (c1.re.FindStringIndex data).length)
    (g2 : 0 < (c2.re.FindStringIndex data).length) : c1 = c2 := by
  obtain ⟨i, hi⟩ := List.mem_iff_getElem?.mp h1
  obtain ⟨j, hj⟩ := List.mem_iff_getElem?.mp h2
  have hij := literalCases_index_unique bot data i j c1 c2 hi hj g1 g2
  subst hij
  rw [hi] at hj
  exact Option.some.inj hj

/-- In a table made of literal cases, the case whose guard holds decides. -/
theorem dispatchTable_unique {σ : Type} (bot : Bot σ) (table : List (CbqCase σ))
    (ctx : Context) (user : User) (cbq : CallbackQuery) (w : σ) (c : CbqCase σ)
    (hsub : ∀ c1 ∈ table, c1 ∈ literalCases bot) (hc : c ∈ table)
    (hg : 0 < (c.re.FindStringIndex cbq.Data).length) :
    dispatchTable table ctx user cbq w = c.body ctx user cbq w := by
  unfold dispatchTable
  cases hf : table.find? (fun c => decide (0 < (c.re.FindStringIndex cbq.Data).length)) with
  | none =>
    have := List.find?_eq_none.mp hf c hc
    simp only [decide_eq_true_eq] at this
    exact absurd hg this
  | some c1 =>
    have hg1 := List.find?_some hf
    simp only [decide_eq_true_eq] at hg1
    have hmem := List.mem_of_find?_eq_some hf
    rw [literalCases_unique bot cbq.Data c1 c (hsub _ hmem) (hsub _ hc) hg1 hg]

theorem dispatchTable_none {σ : Type} (table : List (CbqCase σ))
    (ctx : Context) (user : User) (cbq : CallbackQuery) (w : σ)
    (hnone : ∀ c ∈ table, ¬ 0 < (c.re.FindStringIndex cbq.Data).length) :
    dispatchTable table ctx user cbq w = { ret := .nil, world := w, trace := [] } := by
  unfold dispatchTable
  have : table.find? (fun c => decide (0 < (c.re.FindStringIndex cbq.Data).length)) = none := by
    rw [List.find?_eq_none]
    intro c hc
    simpa using hnone c hc
  rw [this]

theorem dispatchTable_append_left {σ : Type} (t1 t2 : List (CbqCase σ))
    (ctx : Context) (user : User) (cbq : CallbackQuery) (w : σ) (c : CbqCase σ)
    (hc : c ∈ t1) (hg : 0 < (c.re.FindStringIndex cbq.Data).length) :
    dispatchTable (t1 ++ t2) ctx user cbq w = dispatchTable t1 ctx user cbq w := by
  unfold dispatchTable
  rw [List.find?_append]
  cases hf : t1.find? (fun c => decide (0 < (c.re.FindStringIndex cbq.Data).length)) with
  | none =>
    have := List.find?_eq_none.mp hf c hc
    simp only [decide_eq_true_eq] at this
    exact absurd hg this
  | some c1 => rfl

theorem dispatchTable_append_right {σ : Type} (t1 t2 : List (CbqCase σ))
    (ctx : Context) (user : User) (cbq : CallbackQuery) (w : σ)
    (hnone : ∀ c ∈ t1, ¬ 0 < (c.re.FindStringIndex cbq.Data).length) :
    dispatchTable (t1 ++ t2) ctx user cbq w = dispatchTable t2 ctx user cbq w := by
  unfold dispatchTable
  rw [List.find?_append]
  have : t1.find? (fun c => decide (0 < (c.re.FindStringIndex cbq.Data).length)) = none := by
    rw [List.find?_eq_none]
    intro c hc
    simpa using hnone c hc
  rw [this]
  rfl

/-- A literal case among the first six decides as soon as its guard holds. -/
theorem callbackQuery_of_early_case {σ : Type} (bot : Bot σ) (ctx : Context) (user : User)
    (cbq : CallbackQuery) (w : σ) (c : CbqCase σ)
    (hc : c ∈ (literalCases bot).take 6)
    (hg : 0 < (c.re.FindStringIndex cbq.Data).length) :
    onUpdateCallbackQuery bot ctx user cbq w = c.body ctx user cbq w := by
  rw [onUpdateCallbackQuery_eq_table, cbqTable, List.append_assoc,
    dispatchTable_append_left _ _ ctx user cbq w c hc hg]
  exact dispatchTable_unique bot _ ctx user cbq w c
    (fun c1 h1 => List.mem_of_mem_take h1) hc hg

/-- Any literal case decides when its guard holds and none of the four
patterns built from constants matches. -/
theorem callbackQuery_of_literal_case {σ : Type} (bot : Bot σ) (ctx : Context) (user : User)
    (cbq : CallbackQuery) (w : σ) (c : CbqCase σ)
    (hc : c ∈ literalCases bot)
    (hg : 0 < (c.re.FindStringIndex cbq.Data).length)
    (hset : ∀ c1 ∈ settingsCases bot, ¬ 0 < (c1.re.FindStringIndex cbq.Data).length) :
    onUpdateCallbackQuery bot ctx user cbq w = c.body ctx user cbq w := by
  rw [onUpdateCallbackQuery_eq_table, cbqTable]
  have hsplit : c ∈ (literalCases bot).take 6 ∨ c ∈ (literalCases bot).drop 6 := by
    rw [← List.mem_append, List.take_append_drop]
    exact hc
  rcases hsplit with h | h
  · rw [List.append_assoc, dispatchTable_append_left _ _ ctx user cbq w c h hg]
    exact dispatchTable_unique bot _ ctx user cbq w c
      (fun c1 h1 => List.mem_of_mem_take h1) h hg
  · have hearly : ∀ c1 ∈ (literalCases bot).take 6 ++ settingsCases bot,
        ¬ 0 < (c1.re.FindStringIndex cbq.Data).length := by
      intro c1 h1 g1
      rcases List.mem_append.mp h1 with h2 | h2
      · obtain ⟨i, hi⟩ := List.mem_iff_getElem?.mp h2
        obtain ⟨j, hj⟩ := List.mem_iff_getElem?.mp h
        rw [List.getElem?_take] at hi
        rw [List.getElem?_drop] at hj
        by_cases hlt : i < 6
        · rw [if_pos hlt] at hi
          have := literalCases_index_unique bot cbq.Data i (6 + j) c1 c hi hj g1 hg
          omega
        · rw [if_neg hlt] at hi
          cases hi
      · exact hset c1 h2 g1
    rw [dispatchTable_append_right _ _ ctx user cbq w hearly]
    exact dispatchTable_unique bot _ ctx user cbq w c
      (fun c1 h1 => List.mem_of_mem_drop h1) h hg

/-- A callback-query update: no message, no title-changing channel post. -/
theorem onUpdate_callback_eq {σ : Type} (bot : Bot σ) (ctx : Context) (update : Update)
    (cbq : CallbackQuery) (w : σ)
    (hmsg : update.Message = none)
    (hpost : ∀ post, update.ChannelPost = some post → post.NewChatTitle = "")
    (hcbq : update.CallbackQuery = some cbq) :
    onUpdate bot ctx update w = onUpdateCallbackQuery bot ctx ctx.user cbq w := by
  rw [onUpdate_eq_rest bot ctx update w hpost]
  simp [onUpdateRest, hmsg, hcbq, getUserCtx]

theorem oneGroupCase_body {σ : Type} (bot : Bot σ) (ctx : Context) (user : User)
    (cbq : CallbackQuery) (w : σ) (re : Regexp) (call : User → CallbackQuery → Int → Call)
    (m : Match) (d : List Char)
    (hexec : re.exec cbq.Data.data = some m) (hcaps : m.caps = [d]) (hd : IsDigits d)
    (hfit : digitsValue d < 2 ^ (bot.intSize - 1)) :
    (oneGroupCase bot re call).body ctx user cbq w =
      invoke bot ctx (call user cbq (digitsValue d : Int)) w := by
  simp only [oneGroupCase, atoiGroup, findStringSubmatch_of_exec re _ m hexec, hcaps,
    List.map_cons, List.map_nil, List.getElem?_cons_succ, List.getElem?_cons_zero,
    atoi_digits bot.intSize d hd hfit]

theorem toggleCase_body {σ : Type} (bot : Bot σ) (ctx : Context) (user : User)
    (cbq : CallbackQuery) (w : σ) (m : Match) (d1 d2 : List Char)
    (hexec : cbqFileRestrictionsChat.exec cbq.Data.data = some m) (hcaps : m.caps = [d1, d2])
    (hd1 : IsDigits d1) (hd2 : IsDigits d2)
    (hfit1 : digitsValue d1 < 2 ^ (bot.intSize - 1))
    (hfit2 : digitsValue d2 < 2 ^ (bot.intSize - 1)) :
    (toggleCase bot).body ctx user cbq w =
      invoke bot ctx
        (.onFileRestrictionsSetChatCBQ cbq (digitsValue d1 : Int) (digitsValue d2 : Int)) w := by
  simp only [toggleCase, atoiGroup, findStringSubmatch_of_exec _ _ m hexec, hcaps,
    List.map_cons, List.map_nil, List.getElem?_cons_succ, List.getElem?_cons_zero,
    atoi_digits bot.intSize d1 hd1 hfit1, atoi_digits bot.intSize d2 hd2 hfit2]

/-- Routing of a payload `file:<digits><tail>` by one of the five anchored
`file:` cases. -/
theorem route_file_case {σ : Type} (bot : Bot σ) (ctx : Context) (update : Update)
    (cbq : CallbackQuery) (w : σ) (dn : String) (n : Nat) (tail : String)
    (call : User → CallbackQuery → Int → Call)
    (hmsg : update.Message = none)
    (hpost : ∀ post, update.ChannelPost = some post → post.NewChatTitle = "")
    (hcbq : update.CallbackQuery = some cbq)
    (hn : IsDecimalOf dn n) (hfit : n < 2 ^ (bot.intSize - 1))
    (htail : NoDigitHead tail.data) (hne : tail.data ≠ [])
    (hmem : oneGroupCase bot
      (MustCompile ⟨true, [.lit "file:".data, .digits, .lit tail.data], true⟩) call
        ∈ (literalCases bot).take 6)
    (hdata : cbq.Data = "file:" ++ dn ++ tail) :
    RoutesTo bot ctx update w [] (call ctx.user cbq (n : Int)) w := by
  refine routesTo_of_eq (show handlerCalls [] = [] from rfl) ?_
  rw [Run.after_nil, onUpdate_callback_eq bot ctx update cbq w hmsg hpost hcbq]
  have hlist : cbq.Data.data = "file:".data ++ dn.data ++ tail.data := by
    rw [hdata]; simp
  have hexec : (MustCompile ⟨true, [.lit "file:".data, .digits, .lit tail.data], true⟩).exec
      cbq.Data.data = some ⟨[], cbq.Data.data, [dn.data]⟩ :=
    (exec_anchored_mid _ _ _ _ htail hne).mpr ⟨dn.data, hn.1, hlist, rfl⟩
  have hg := (guard_iff _ cbq.Data).mpr (by rw [hexec]; rfl)
  rw [callbackQuery_of_early_case bot ctx ctx.user cbq w _ hmem hg]
  rw [oneGroupCase_body bot ctx ctx.user cbq w _ call _ dn.data hexec rfl hn.1
    (by rw [hn.2]; exact hfit), hn.2]

theorem exec_toggle_exact (d1 d2 : List Char) (hd1 : IsDigits d1) (hd2 : IsDigits d2) :
    cbqFileRestrictionsChat.exec
        ("file:".data ++ d1 ++ ":restrictions:chat-subscription:".data ++ d2 ++ ":toggl".data) =
      some ⟨[], "file:".data ++ d1 ++ ":restrictions:chat-subscription:".data ++ d2 ++
        ":toggl".data, [d1, d2]⟩ := by
  have h := unanchored_complete
    [.lit "file:".data, .digits, .lit ":restrictions:chat-subscription:".data, .digits,
      .lit ":toggl".data] [] [] [d1, d2]
    ((validCaps_two _ _ _ _).mpr ⟨d1, d2, hd1, hd2, rfl⟩)
    ⟨by decide, by decide, by decide, by decide, trivial⟩
    (fun _ _ _ _ _ => Nat.zero_le _)
  have hs : assemble [.lit "file:".data, .digits, .lit ":restrictions:chat-subscription:".data,
      .digits, .lit ":toggl".data] [d1, d2] =
      "file:".data ++ d1 ++ ":restrictions:chat-subscription:".data ++ d2 ++ ":toggl".data := by
    simp [assemble]
  rw [hs] at h
  simpa [cbqFileRestrictionsChat] using h

/-! ## The decimal form printed by `Nat.repr` -/

theorem digitChar_digit (k : Nat) (hk : k < 10) :
    (Nat.digitChar k).isDigit = true ∧ (Nat.digitChar k).toNat - 48 = k := by
  interval_cases k <;> exact ⟨rfl, rfl⟩

theorem digitsValue_snoc (a : List Char) (d : Char) :
    digitsValue (a ++ [d]) = digitsValue a * 10 + (d.toNat - 48) := by
  simp [digitsValue, List.foldl_append]

theorem toDigitsCore_decimal :
    ∀ (fuel n : Nat) (ds : List Char), n < fuel →
      ∃ pre, Nat.toDigitsCore 10 fuel n ds = pre ++ ds ∧ IsDigits pre ∧ digitsValue pre = n := by
  intro fuel
  induction fuel with
  | zero => intro n ds h; omega
  | succ fuel ih =>
    intro n ds hlt
    have hd := digitChar_digit (n % 10) (Nat.mod_lt _ (by decide))
    unfold Nat.toDigitsCore
    by_cases h0 : n / 10 = 0
    · simp only [h0, if_true]
      refine ⟨[Nat.digitChar (n % 10)], rfl, ⟨by simp, by simp [hd.1]⟩, ?_⟩
      have : digitsValue [Nat.digitChar (n % 10)] = (Nat.digitChar (n % 10)).toNat - 48 := by
        simp [digitsValue]
      rw [this, hd.2]
      omega
    · simp only [h0, if_false]
      obtain ⟨pre, hpre, hdig, hval⟩ := ih (n / 10) (Nat.digitChar (n % 10) :: ds) (by omega)
      refine ⟨pre ++ [Nat.digitChar (n % 10)], by simp [hpre], ⟨by simp, ?_⟩, ?_⟩
      · simp [List.all_append, hdig.2, hd.1]
      · rw [digitsValue_snoc, hval, hd.2]
        omega

/-- The decimal form Lean prints for `n` is a decimal form of `n`. -/
theorem isDecimalOf_repr (n : Nat) : IsDecimalOf (Nat.repr n) n := by
  obtain ⟨pre, hpre, hdig, hval⟩ := toDigitsCore_decimal (n + 1) n [] (by omega)
  have hdata : (Nat.repr n).data = pre := by
    simp [Nat.repr, Nat.toDigits, List.asString, hpre]
  unfold IsDecimalOf
  rw [hdata]
  exact ⟨hdig, hval⟩

/-! ## C3: the six `file:` payloads -/

/-- C3: for a callback-query update (no message, no title-changing channel
post), and digit strings `dn`, `dm` that are decimal forms (leading zeros
allowed) of `n` and `m`, both below `2^(intSize-1)`: the payloads
`file:dn:refresh`, `file:dn:delete`, `file:dn:delete:confirm`,
`file:dn:restrictions`, `file:dn:restrictions:chat:check` and
`file:dn:restrictions:chat-subscription:dm:toggl` are routed to exactly
`onFileRefreshCBQ n`, `onFileDeleteCBQ n`, `onFileDeleteConfirmCBQ n`,
`onFileRestrictionsCBQ n`, `onFileRestrictionsChatCheck n` and
`onFileRestrictionsSetChatCBQ n m`. -/
theorem onUpdate_file_callbacks {σ : Type} (bot : Bot σ) (ctx : Context) (update : Update)
    (cbq : CallbackQuery) (w : σ) (dn dm : String) (n m : Nat)
    (hmsg : update.Message = none)
    (hpost : ∀ post, update.ChannelPost = some post → post.NewChatTitle = "")
    (hcbq : update.CallbackQuery = some cbq)
    (hn : IsDecimalOf dn n) (hm : IsDecimalOf dm m)
    (hnfit : n < 2 ^ (bot.intSize - 1)) (hmfit : m < 2 ^ (bot.intSize - 1)) :
    (cbq.Data = "file:" ++ dn ++ ":refresh" →
      RoutesTo bot ctx update w [] (.onFileRefreshCBQ cbq n) w) ∧
    (cbq.Data = "file:" ++ dn ++ ":delete" →
      RoutesTo bot ctx update w [] (.onFileDeleteCBQ cbq n) w) ∧
    (cbq.Data = "file:" ++ dn ++ ":delete:confirm" →
      RoutesTo bot ctx update w [] (.onFileDeleteConfirmCBQ cbq n) w) ∧
    (cbq.Data = "file:" ++ dn ++ ":restrictions" →
      RoutesTo bot ctx update w [] (.onFileRestrictionsCBQ cbq n) w) ∧
    (cbq.Data = "file:" ++ dn ++ ":restrictions:chat:check" →
      RoutesTo bot ctx update w [] (.onFileRestrictionsChatCheck cbq n) w) ∧
    (cbq.Data = "file:" ++ dn ++ ":restrictions:chat-subscription:" ++ dm ++ ":toggl" →
      RoutesTo bot ctx update w [] (.onFileRestrictionsSetChatCBQ cbq n m) w) := by
  refine ⟨?_, ?_, ?_, ?_, ?_, ?_⟩
  · intro hdata
    exact route_file_case bot ctx update cbq w dn n ":refresh"
      (fun _ cbq id => .onFileRefreshCBQ cbq id) hmsg hpost hcbq hn hnfit
      (by decide) (by decide) (List.mem_cons_of_mem _ (List.mem_cons_self _ _)) hdata
  · intro hdata
    exact route_file_case bot ctx update cbq w dn n ":delete"
      (fun _ cbq id => .onFileDeleteCBQ cbq id) hmsg hpost hcbq hn hnfit
      (by decide) (by decide)
      (List.mem_cons_of_mem _ (List.mem_cons_of_mem _ (List.mem_cons_self _ _))) hdata
  · intro hdata
    exact route_file_case bot ctx update cbq w dn n ":delete:confirm"
      (fun _ cbq id => .onFileDeleteConfirmCBQ cbq id) hmsg hpost hcbq hn hnfit
      (by decide) (by decide)
      (List.mem_cons_of_mem _ (List.mem_cons_of_mem _ (List.mem_cons_of_mem _
        (List.mem_cons_self _ _)))) hdata
  · intro hdata
    exact route_file_case bot ctx update cbq w dn n ":restrictions"
      (fun _ cbq id => .onFileRestrictionsCBQ cbq id) hmsg hpost hcbq hn hnfit
      (by decide) (by decide)
      (List.mem_cons_of_mem _ (List.mem_cons_of_mem _ (List.mem_cons_of_mem _
        (List.mem_cons_of_mem _ (List.mem_cons_self _ _))))) hdata
  · intro hdata
    exact route_file_case bot ctx update cbq w dn n ":restrictions:chat:check"
      (fun _ cbq id => .onFileRestrictionsChatCheck cbq id) hmsg hpost hcbq hn hnfit
      (by decide) (by decide) (List.mem_cons_self _ _) hdata
  · intro hdata
    refine routesTo_of_eq (show handlerCalls [] = [] from rfl) ?_
    rw [Run.after_nil, onUpdate_callback_eq bot ctx update cbq w hmsg hpost hcbq]
    have hlist : cbq.Data.data = "file:".data ++ dn.data ++
        ":restrictions:chat-subscription:".data ++ dm.data ++ ":toggl".data := by
      rw [hdata]; simp
    have hexec := exec_toggle_exact dn.data dm.data hn.1 hm.1
    rw [← hlist] at hexec
    have hg := (guard_iff cbqFileRestrictionsChat cbq.Data).mpr (by rw [hexec]; rfl)
    have hmem : toggleCase bot ∈ (literalCases bot).take 6 :=
      List.mem_cons_of_mem _ (List.mem_cons_of_mem _ (List.mem_cons_of_mem _
        (List.mem_cons_of_mem _ (List.mem_cons_of_mem _ (List.mem_cons_self _ _)))))
    rw [callbackQuery_of_early_case bot ctx ctx.user cbq w _ hmem hg]
    rw [toggleCase_body bot ctx ctx.user cbq w _ dn.data dm.data hexec rfl hn.1 hm.1
      (by rw [hn.2]; exact hnfit) (by rw [hm.2]; exact hmfit), hn.2, hm.2]

theorem onUpdate_file_callbacks_witness :
    RoutesTo demoBot ⟨⟨2⟩⟩
      ⟨none, none, some (demoCbq "file:42:restrictions:chat-subscription:7:toggl")⟩ 0 []
      (.onFileRestrictionsSetChatCBQ
        (demoCbq "file:42:restrictions:chat-subscription:7:toggl") 42 7) 0 :=
  (onUpdate_file_callbacks demoBot ⟨⟨2⟩⟩
    ⟨none, none, some (demoCbq "file:42:restrictions:chat-subscription:7:toggl")⟩
    (demoCbq "file:42:restrictions:chat-subscription:7:toggl") 0 "42" "7" 42 7
    rfl (by simp) rfl ⟨⟨by decide, by decide⟩, by decide⟩ ⟨⟨by decide, by decide⟩, by decide⟩
    (by decide) (by decide)).2.2.2.2.2 (by decide)

/-! ## C5: a payload no pattern matches -/

theorem cbqTable_re {σ : Type} (bot : Bot σ) :
    (cbqTable bot).map CbqCase.re = cbqPatterns bot := rfl

/-- C5: for a callback-query update (no message, no title-changing channel post)
whose payload none of the thirteen patterns matches, `onUpdate` calls no handler,
sends nothing, leaves the world as it was and returns nil. -/
theorem onUpdate_unmatched_callback {σ : Type} (bot : Bot σ) (ctx : Context) (update : Update)
    (cbq : CallbackQuery) (w : σ)
    (hmsg : update.Message = none)
    (hpost : ∀ post, update.ChannelPost = some post → post.NewChatTitle = "")
    (hcbq : update.CallbackQuery = some cbq)
    (hnone : ∀ re ∈ cbqPatterns bot, re.FindStringIndex cbq.Data = []) :
    onUpdate bot ctx update w = { ret := .nil, world := w, trace := [] } := by
  rw [onUpdate_callback_eq bot ctx update cbq w hmsg hpost hcbq, onUpdateCallbackQuery_eq_table]
  apply dispatchTable_none
  intro c hc hg
  have hre : c.re ∈ cbqPatterns bot := by
    rw [← cbqTable_re]
    exact List.mem_map_of_mem _ hc
  rw [hnone c.re hre] at hg
  exact absurd hg (by simp)

theorem onUpdate_unmatched_callback_witness :
    onUpdate demoBot ⟨⟨2⟩⟩ ⟨none, some (demoMsg "post"), some (demoCbq "file:1:archive")⟩ 0 =
      { ret := .nil, world := 0, trace := [] } :=
  onUpdate_unmatched_callback demoBot ⟨⟨2⟩⟩
    ⟨none, some (demoMsg "post"), some (demoCbq "file:1:archive")⟩ (demoCbq "file:1:archive") 0
    rfl (by simp [demoMsg]) rfl (by decide)

/-! ## C4: a capture that does not parse -/

theorem caps_anchored_mid (a b s : List Char) (m : Match)
    (h : (MustCompile ⟨true, [.lit a, .digits, .lit b], true⟩).exec s = some m) :
    ∃ d, IsDigits d ∧ m.caps = [d] := by
  obtain ⟨caps, _, hv, hm⟩ := anchored_sound _ _ _ h
  obtain ⟨d, hd, hc⟩ := (validCaps_one a b caps).mp hv
  exact ⟨d, hd, by rw [hm, hc]⟩

theorem caps_anchored_last (a s : List Char) (m : Match)
    (h : (MustCompile ⟨true, [.lit a, .digits], true⟩).exec s = some m) :
    ∃ d, IsDigits d ∧ m.caps = [d] := by
  obtain ⟨caps, _, hv, hm⟩ := anchored_sound _ _ _ h
  obtain ⟨d, hd, hc⟩ := (validCaps_last a caps).mp hv
  exact ⟨d, hd, by rw [hm, hc]⟩

/-- Each literal case is the toggle case or parses the single group of its regex. -/
theorem literalCases_shape {σ : Type} (bot : Bot σ) (c : CbqCase σ)
    (hc : c ∈ literalCases bot) :
    c = toggleCase bot ∨
      ∃ re call, c = oneGroupCase bot re call ∧
        ∀ s m, re.exec s = some m → ∃ d, IsDigits d ∧ m.caps = [d] := by
  simp only [literalCases, List.mem_cons, List.mem_singleton, List.not_mem_nil, or_false] at hc
  rcases hc with h | h | h | h | h | h | h | h | h
  · exact Or.inr ⟨_, _, h, fun s m hm => caps_anchored_mid _ _ s m hm⟩
  · exact Or.inr ⟨_, _, h, fun s m hm => caps_anchored_mid _ _ s m hm⟩
  · exact Or.inr ⟨_, _, h, fun s m hm => caps_anchored_mid _ _ s m hm⟩
  · exact Or.inr ⟨_, _, h, fun s m hm => caps_anchored_mid _ _ s m hm⟩
  · exact Or.inr ⟨_, _, h, fun s m hm => caps_anchored_mid _ _ s m hm⟩
  · exact Or.inl h
  · exact Or.inr ⟨_, _, h, fun s m hm => caps_anchored_last _ s m hm⟩
  · exact Or.inr ⟨_, _, h, fun s m hm => caps_anchored_mid _ _ s m hm⟩
  · exact Or.inr ⟨_, _, h, fun s m hm => caps_anchored_mid _ _ s m hm⟩

theorem oneGroupCase_parse_failure {σ : Type} (bot : Bot σ) (ctx : Context) (user : User)
    (cbq : CallbackQuery) (w : σ) (re : Regexp) (call : User → CallbackQuery → Int → Call)
    (hcaps : ∀ s m, re.exec s = some m → ∃ d, IsDigits d ∧ m.caps = [d])
    (i : Nat) (group : String) (e : Err) (hi : 1 ≤ i)
    (hgroup : (re.FindStringSubmatch cbq.Data)[i]? = some group)
    (herr : Atoi bot.intSize group = .error e) :
    FailsWithoutCall w ((oneGroupCase bot re call).body ctx user cbq w) := by
  cases hexec : re.exec cbq.Data.data with
  | none =>
    simp [Regexp.FindStringSubmatch, hexec] at hgroup
  | some m =>
    obtain ⟨d, _, hd⟩ := hcaps _ _ hexec
    rw [findStringSubmatch_of_exec re _ m hexec, hd] at hgroup
    have hi1 : i = 1 := by
      rcases i with _ | _ | i
      · omega
      · rfl
      · simp at hgroup
    subst hi1
    simp only [List.map_cons, List.map_nil, List.getElem?_cons_succ, List.getElem?_cons_zero,
      Option.some.injEq] at hgroup
    refine ⟨e, "parse cbq data", ?_⟩
    simp only [oneGroupCase, atoiGroup, findStringSubmatch_of_exec re _ m hexec, hd,
      List.map_cons, List.map_nil, List.getElem?_cons_succ, List.getElem?_cons_zero, hgroup,
      herr]

theorem toggleCase_parse_failure {σ : Type} (bot : Bot σ) (ctx : Context) (user : User)
    (cbq : CallbackQuery) (w : σ)
    (i : Nat) (group : String) (e : Err) (hi : 1 ≤ i)
    (hgroup : (cbqFileRestrictionsChat.FindStringSubmatch cbq.Data)[i]? = some group)
    (herr : Atoi bot.intSize group = .error e) :
    FailsWithoutCall w ((toggleCase bot).body ctx user cbq w) := by
  cases hexec : cbqFileRestrictionsChat.exec cbq.Data.data with
  | none =>
    simp [Regexp.FindStringSubmatch, hexec] at hgroup
  | some m =>
    obtain ⟨a, d1, d2, rest, _, _, _, hm⟩ := exec_toggle_sound _ m hexec
    have hd : m.caps = [d1, d2] := by rw [hm]
    rw [findStringSubmatch_of_exec _ _ m hexec, hd] at hgroup
    simp only [toggleCase, atoiGroup, findStringSubmatch_of_exec _ _ m hexec, hd,
      List.map_cons, List.map_nil, List.getElem?_cons_succ, List.getElem?_cons_zero]
    rcases i with _ | _ | _ | i
    · omega
    · simp only [List.map_cons, List.map_nil, List.getElem?_cons_succ,
        List.getElem?_cons_zero, Option.some.injEq] at hgroup
      rw [hgroup, herr]
      exact ⟨e, _, rfl⟩
    · simp only [List.map_cons, List.map_nil, List.getElem?_cons_succ,
        List.getElem?_cons_zero, Option.some.injEq] at hgroup
      rw [hgroup, herr]
      cases Atoi bot.intSize (String.mk d1) with
      | error e1 => exact ⟨e1, _, rfl⟩
      | ok id => exact ⟨e, _, rfl⟩
    · simp at hgroup

/-- C4: for a callback-query update (no message, no title-changing channel post)
whose first matching case is one of the nine with capture groups, if some
captured group (index at least 1 of the submatch result) does not parse with
`Atoi`, then `onUpdate` returns a non-nil error (the parse error, wrapped), calls
no handler, changes nothing, and no later case is run in its stead. -/
theorem onUpdate_parse_failure {σ : Type} (bot : Bot σ) (ctx : Context) (update : Update)
    (cbq : CallbackQuery) (w : σ) (c : CbqCase σ) (i : Nat) (group : String) (e : Err)
    (hmsg : update.Message = none)
    (hpost : ∀ post, update.ChannelPost = some post → post.NewChatTitle = "")
    (hcbq : update.CallbackQuery = some cbq)
    (hfirst : (cbqTable bot).find?
      (fun c => decide (0 < (c.re.FindStringIndex cbq.Data).length)) = some c)
    (hlit : c ∈ literalCases bot)
    (hi : 1 ≤ i)
    (hgroup : (c.re.FindStringSubmatch cbq.Data)[i]? = some group)
    (herr : Atoi bot.intSize group = .error e) :
    ∃ cause message,
      onUpdate bot ctx update w =
        { ret := .err (.Wrap cause message), world := w, trace := [] } := by
  rw [onUpdate_callback_eq bot ctx update cbq w hmsg hpost hcbq, onUpdateCallbackQuery_eq_table]
  have hrun : dispatchTable (cbqTable bot) ctx ctx.user cbq w = c.body ctx ctx.user cbq w := by
    unfold dispatchTable
    rw [hfirst]
  rw [hrun]
  rcases literalCases_shape bot c hlit with h | ⟨re, call, h, hcaps⟩
  · subst h
    exact toggleCase_parse_failure bot ctx ctx.user cbq w i group e hi hgroup herr
  · subst h
    exact oneGroupCase_parse_failure bot ctx ctx.user cbq w re call hcaps i group e hi
      hgroup herr

theorem onUpdate_parse_failure_witness :
    ∃ cause message,
      onUpdate demoBot ⟨⟨2⟩⟩
          ⟨none, none, some (demoCbq "file:99999999999999999999:refresh")⟩ 0 =
        { ret := .err (.Wrap cause message), world := 0, trace := [] } :=
  onUpdate_parse_failure demoBot ⟨⟨2⟩⟩
    ⟨none, none, some (demoCbq "file:99999999999999999999:refresh")⟩
    (demoCbq "file:99999999999999999999:refresh") 0
    (oneGroupCase demoBot cbqFileRefresh (fun _ cbq id => .onFileRefreshCBQ cbq id))
    1 "99999999999999999999" (.NumError "Atoi" "99999999999999999999" .ErrRange)
    rfl (by simp) rfl rfl (List.mem_cons_of_mem _ (List.mem_cons_self _ _)) (by decide)
    (by decide) rfl

/-! ## C7: the literal patterns are pairwise disjoint -/

/-- Evaluating the nine literal cases in another order gives the same run. -/
theorem dispatchTable_perm {σ : Type} (bot : Bot σ) (order : List (CbqCase σ))
    (ctx : Context) (user : User) (cbq : CallbackQuery) (w : σ)
    (hperm : order.Perm (literalCases bot)) :
    dispatchTable order ctx user cbq w = dispatchTable (literalCases bot) ctx user cbq w := by
  by_cases h : ∃ c ∈ literalCases bot, 0 < (c.re.FindStringIndex cbq.Data).length
  · obtain ⟨c, hc, hg⟩ := h
    rw [dispatchTable_unique bot order ctx user cbq w c (fun c1 h1 => hperm.mem_iff.mp h1)
      (hperm.mem_iff.mpr hc) hg]
    rw [dispatchTable_unique bot (literalCases bot) ctx user cbq w c (fun c1 h1 => h1) hc hg]
  · have hnone : ∀ c ∈ literalCases bot, ¬ 0 < (c.re.FindStringIndex cbq.Data).length := by
      intro c hc hg
      exact h ⟨c, hc, hg⟩
    rw [dispatchTable_none order ctx user cbq w (fun c hc => hnone c (hperm.mem_iff.mp hc)),
      dispatchTable_none (literalCases bot) ctx user cbq w hnone]

/-- The switch, when a literal case among the first six matches or none of the
four patterns built from constants does, is the table of the nine literal cases. -/
theorem callbackQuery_eq_literal_table {σ : Type} (bot : Bot σ) (ctx : Context) (user : User)
    (cbq : CallbackQuery) (w : σ)
    (h : (∃ c ∈ (literalCases bot).take 6, 0 < (c.re.FindStringIndex cbq.Data).length) ∨
      (∀ c ∈ settingsCases bot, c.re.FindStringIndex cbq.Data = [])) :
    onUpdateCallbackQuery bot ctx user cbq w =
      dispatchTable (literalCases bot) ctx user cbq w := by
  rcases h with ⟨c, hc, hg⟩ | hset
  · rw [callbackQuery_of_early_case bot ctx user cbq w c hc hg,
      dispatchTable_unique bot (literalCases bot) ctx user cbq w c (fun c1 h1 => h1)
        (List.mem_of_mem_take hc) hg]
  · have hset1 : ∀ c ∈ settingsCases bot, ¬ 0 < (c.re.FindStringIndex cbq.Data).length := by
      intro c hc hg
      rw [hset c hc] at hg
      exact absurd hg (by simp)
    by_cases h : ∃ c ∈ literalCases bot, 0 < (c.re.FindStringIndex cbq.Data).length
    · obtain ⟨c, hc, hg⟩ := h
      rw [callbackQuery_of_literal_case bot ctx user cbq w c hc hg hset1,
        dispatchTable_unique bot (literalCases bot) ctx user cbq w c (fun c1 h1 => h1) hc hg]
    · have hnone : ∀ c ∈ literalCases bot, ¬ 0 < (c.re.FindStringIndex cbq.Data).length := by
        intro c hc hg
        exact h ⟨c, hc, hg⟩
      rw [onUpdateCallbackQuery_eq_table, dispatchTable_none (literalCases bot) ctx user cbq w hnone]
      apply dispatchTable_none
      intro c hc
      rw [cbqTable, List.append_assoc] at hc
      rcases List.mem_append.mp hc with h1 | h1
      · exact hnone c (List.mem_of_mem_take h1)
      · rcases List.mem_append.mp h1 with h2 | h2
        · exact hset1 c h2
        · exact hnone c (List.mem_of_mem_drop h2)

/-- C7: no payload matches two of the nine literal patterns (so the first match
among them is the only one and the unanchored toggle pattern shadows none of
the others), and the table of the nine literal cases evaluated in any order
gives the run the table in source order gives; that run is the one of `onUpdate`
on a callback-query update whenever a literal case among the first six matches or
none of the four patterns built from constants matches. -/
theorem literal_patterns_order_irrelevant {σ : Type} (bot : Bot σ) (ctx : Context)
    (update : Update) (cbq : CallbackQuery) (w : σ) (order : List (CbqCase σ))
    (hmsg : update.Message = none)
    (hpost : ∀ post, update.ChannelPost = some post → post.NewChatTitle = "")
    (hcbq : update.CallbackQuery = some cbq)
    (hperm : order.Perm (literalCases bot)) :
    (∀ (i j : Nat) (re1 re2 : Regexp),
      literalPatterns[i]? = some re1 → literalPatterns[j]? = some re2 →
      0 < (re1.FindStringIndex cbq.Data).length → 0 < (re2.FindStringIndex cbq.Data).length →
      i = j) ∧
    dispatchTable order ctx ctx.user cbq w =
      dispatchTable (literalCases bot) ctx ctx.user cbq w ∧
    (((∃ c ∈ (literalCases bot).take 6, 0 < (c.re.FindStringIndex cbq.Data).length) ∨
        (∀ c ∈ settingsCases bot, c.re.FindStringIndex cbq.Data = [])) →
      onUpdate bot ctx update w = dispatchTable order ctx ctx.user cbq w) := by
  refine ⟨?_, dispatchTable_perm bot order ctx ctx.user cbq w hperm, ?_⟩
  · intro i j re1 re2 h1 h2 g1 g2
    exact literalPatterns_disjoint cbq.Data.data i j re1 re2 h1 h2
      ((guard_iff _ _).mp g1) ((guard_iff _ _).mp g2)
  · intro h
    rw [onUpdate_callback_eq bot ctx update cbq w hmsg hpost hcbq,
      callbackQuery_eq_literal_table bot ctx ctx.user cbq w h,
      dispatchTable_perm bot order ctx ctx.user cbq w hperm]

theorem literal_patterns_order_irrelevant_witness :
    onUpdate demoBot ⟨⟨2⟩⟩
        ⟨none, none, some (demoCbq "settings:channels-and-chats:5:delete")⟩ 0 =
      dispatchTable (literalCases demoBot).reverse ⟨⟨2⟩⟩ ⟨2⟩
        (demoCbq "settings:channels-and-chats:5:delete") 0 :=
  (literal_patterns_order_irrelevant demoBot ⟨⟨2⟩⟩
    ⟨none, none, some (demoCbq "settings:channels-and-chats:5:delete")⟩
    (demoCbq "settings:channels-and-chats:5:delete") 0 (literalCases demoBot).reverse
    rfl (by simp) rfl (List.reverse_perm _)).2.2 (Or.inr (by decide))

/-! ## C6: anchoring -/

theorem searchFrom_isSome (p : Pattern) :
    ∀ (a b pre : List Char), (matchToks p.eol p.toks b).isSome = true →
      (searchFrom p pre (a ++ b)).isSome = true := by
  intro a
  induction a with
  | nil =>
    intro b pre h
    obtain ⟨r, hr⟩ := Option.isSome_iff_exists.mp h
    cases b with
    | nil => simp [searchFrom, matchHere, hr]
    | cons c cs => simp [searchFrom, matchHere, hr]
  | cons x a ih =>
    intro b pre h
    rw [List.cons_append, searchFrom]
    cases matchHere p pre (x :: (a ++ b)) with
    | some m => rfl
    | none => exact ih b (pre ++ [x]) h

/-- The toggle pattern matches every text in which its template occurs, at the
leftmost occurrence. -/
theorem exec_toggle_leftmost (s pre d1 d2 suf : List Char) (hd1 : IsDigits d1) (hd2 : IsDigits d2)
    (hs : s = pre ++ toggleText d1 d2 ++ suf) :
    ∃ a e1 e2 rest, IsDigits e1 ∧ IsDigits e2 ∧ s = a ++ toggleText e1 e2 ++ rest ∧
      cbqFileRestrictionsChat.exec s = some ⟨a, toggleText e1 e2, [e1, e2]⟩ ∧
      ∀ a1 f1 f2 rest1, IsDigits f1 → IsDigits f2 → s = a1 ++ toggleText f1 f2 ++ rest1 →
        a.length ≤ a1.length := by
  have hsome : (cbqFileRestrictionsChat.exec s).isSome = true := by
    have hm := matchToks_complete false suf (by simp)
      [.lit "file:".data, .digits, .lit ":restrictions:chat-subscription:".data, .digits,
        .lit ":toggl".data] [d1, d2]
      ((validCaps_two _ _ _ _).mpr ⟨d1, d2, hd1, hd2, rfl⟩)
      ⟨by decide, by decide, by decide, by decide, trivial⟩
    have hshape : assemble [.lit "file:".data, .digits,
        .lit ":restrictions:chat-subscription:".data, .digits, .lit ":toggl".data] [d1, d2] =
        toggleText d1 d2 := by
      simp [assemble, toggleText]
    rw [hshape] at hm
    have := searchFrom_isSome ⟨false, [.lit "file:".data, .digits,
      .lit ":restrictions:chat-subscription:".data, .digits, .lit ":toggl".data], false⟩
      pre (toggleText d1 d2 ++ suf) [] (by rw [hm]; rfl)
    rw [hs, List.append_assoc]
    simpa [cbqFileRestrictionsChat, MustCompile] using this
  obtain ⟨m, hm⟩ := Option.isSome_iff_exists.mp hsome
  obtain ⟨a, caps, rest, hsa, hv, hmeq, hmin⟩ := unanchored_sound _ _ _ hm
  obtain ⟨e1, e2, he1, he2, hc⟩ := (validCaps_two _ _ _ caps).mp hv
  subst hc
  have hshape : ∀ f1 f2, assemble [.lit "file:".data, .digits,
      .lit ":restrictions:chat-subscription:".data, .digits, .lit ":toggl".data] [f1, f2] =
      toggleText f1 f2 := by
    intro f1 f2
    simp [assemble, toggleText]
  rw [hshape] at hsa hmeq
  refine ⟨a, e1, e2, rest, he1, he2, hsa, by rw [hm, hmeq], ?_⟩
  intro a1 f1 f2 rest1 hf1 hf2 hs1
  apply hmin a1 [f1, f2] rest1 (by rw [hshape]; exact hs1)
    ((validCaps_two _ _ _ _).mpr ⟨f1, f2, hf1, hf2, rfl⟩)
  exact ⟨by decide, by decide, by decide, by decide, trivial⟩

theorem anchored_mid_extra (a b a1 : List Char) (x y : Char) (ha : a = x :: y :: a1)
    (hxy : x ≠ y) (hb : NoDigitHead b) (hne : b ≠ []) (s : List Char) (c : Char)
    (h : ((MustCompile ⟨true, [.lit a, .digits, .lit b], true⟩).exec s).isSome = true) :
    (MustCompile ⟨true, [.lit a, .digits, .lit b], true⟩).exec (c :: s) = none ∧
    (MustCompile ⟨true, [.lit a, .digits, .lit b], true⟩).exec (s ++ [c]) = none := by
  obtain ⟨m, hm⟩ := Option.isSome_iff_exists.mp h
  obtain ⟨d, hd, hs, _⟩ := (exec_anchored_mid a b s m hb hne).mp hm
  constructor
  · cases h1 : (MustCompile ⟨true, [.lit a, .digits, .lit b], true⟩).exec (c :: s) with
    | none => rfl
    | some m1 =>
      obtain ⟨d1, _, hs1, _⟩ := (exec_anchored_mid a b _ m1 hb hne).mp h1
      rw [ha] at hs hs1
      simp only [List.cons_append, List.cons.injEq] at hs1
      rw [hs] at hs1
      simp only [List.cons_append, List.cons.injEq] at hs1
      exact absurd hs1.2.1 hxy
  · cases h1 : (MustCompile ⟨true, [.lit a, .digits, .lit b], true⟩).exec (s ++ [c]) with
    | none => rfl
    | some m1 =>
      obtain ⟨d1, hd1, hs1, _⟩ := (exec_anchored_mid a b _ m1 hb hne).mp h1
      rw [hs] at hs1
      have hcancel : d ++ (b ++ [c]) = d1 ++ b := by
        have : a ++ (d ++ (b ++ [c])) = a ++ (d1 ++ b) := by
          simpa [List.append_assoc] using hs1
        exact List.append_cancel_left this
      have hbc : NoDigitHead (b ++ [c]) := noDigitHead_append _ hb hne
      have e1 := takeWhile_digits_append d (b ++ [c]) hd.2 hbc
      have e2 := takeWhile_digits_append d1 b hd1.2 hb
      rw [hcancel, e2] at e1
      subst e1
      have hlen := congrArg List.length (List.append_cancel_left hcancel)
      simp at hlen

theorem anchored_last_extra (a a1 : List Char) (x y : Char) (ha : a = x :: y :: a1)
    (hxy : x ≠ y) (s : List Char) (c : Char)
    (h : ((MustCompile ⟨true, [.lit a, .digits], true⟩).exec s).isSome = true) :
    (MustCompile ⟨true, [.lit a, .digits], true⟩).exec (c :: s) = none ∧
    (((MustCompile ⟨true, [.lit a, .digits], true⟩).exec (s ++ [c])).isSome = true ↔
      c.isDigit = true) := by
  obtain ⟨m, hm⟩ := Option.isSome_iff_exists.mp h
  obtain ⟨d, hd, hs, _⟩ := (exec_anchored_last a s m).mp hm
  constructor
  · cases h1 : (MustCompile ⟨true, [.lit a, .digits], true⟩).exec (c :: s) with
    | none => rfl
    | some m1 =>
      obtain ⟨d1, _, hs1, _⟩ := (exec_anchored_last a _ m1).mp h1
      rw [ha] at hs hs1
      simp only [List.cons_append, List.cons.injEq] at hs1
      rw [hs] at hs1
      simp only [List.cons_append, List.cons.injEq] at hs1
      exact absurd hs1.2.1 hxy
  · constructor
    · intro h1
      obtain ⟨m1, hm1⟩ := Option.isSome_iff_exists.mp h1
      obtain ⟨d1, hd1, hs1, _⟩ := (exec_anchored_last a _ m1).mp hm1
      rw [hs, List.append_assoc] at hs1
      have hcancel := List.append_cancel_left hs1
      have hall := hd1.2
      rw [← hcancel] at hall
      simp only [List.all_append, List.all_cons, List.all_nil, Bool.and_true,
        Bool.and_eq_true] at hall
      exact hall.2
    · intro hc
      have hdc : IsDigits (d ++ [c]) := ⟨by simp, by simp [List.all_append, hd.2, hc]⟩
      have := (exec_anchored_last a (s ++ [c]) ⟨[], s ++ [c], [d ++ [c]]⟩).mpr
        ⟨d ++ [c], hdc, by rw [hs, List.append_assoc], rfl⟩
      rw [this]
      rfl

theorem anchored_whole (toks : List Tok) (s : List Char) (m : Match)
    (h : (MustCompile ⟨true, toks, true⟩).exec s = some m) : m.pre = [] ∧ m.whole = s := by
  obtain ⟨caps, _, _, hm⟩ := anchored_sound _ _ _ h
  rw [hm]
  exact ⟨rfl, rfl⟩

theorem anchoredClaim_mid (a b a1 : List Char) (x y : Char) (ha : a = x :: y :: a1)
    (hxy : x ≠ y) (hb : NoDigitHead b) (hne : b ≠ []) :
    AnchoredClaim (MustCompile ⟨true, [.lit a, .digits, .lit b], true⟩) := by
  intro s c h
  obtain ⟨h2, h3⟩ := anchored_mid_extra a b a1 x y ha hxy hb hne s c h
  refine ⟨fun m hm => anchored_whole _ s m hm, h2, ?_⟩
  intro h4
  rw [h3] at h4
  cases h4

theorem anchoredClaim_details : AnchoredClaim cbqSettingsChannelsAndChatsDetails := by
  intro s c h
  obtain ⟨h2, h3⟩ := anchored_last_extra "settings:channels-and-chats:".data
    "ttings:channels-and-chats:".data 's' 'e' rfl (by decide) s c h
  exact ⟨fun m hm => anchored_whole _ s m hm, h2, fun h4 => ⟨rfl, h3.mp h4⟩⟩

/-- C6, as amended: each of the eight anchored literal patterns matches only a
whole payload; a payload it matches, with one more character in front, is not
matched by it, and with one more character at the end is matched by it only
when the pattern is the details pattern (which ends in its digit group) and the
character is a digit, in which case it is matched. The toggle pattern is not
anchored: on every payload in which a text
`file:<digits>:restrictions:chat-subscription:<digits>:toggl` occurs, it matches
the leftmost occurrence and captures its two digit strings, and `onUpdate`
routes the callback to `onFileRestrictionsSetChatCBQ` with their values whenever
both are below `2^(intSize-1)`. -/
theorem anchoring_of_literal_patterns {σ : Type} (bot : Bot σ) (ctx : Context)
    (update : Update) (cbq : CallbackQuery) (w : σ)
    (hmsg : update.Message = none)
    (hpost : ∀ post, update.ChannelPost = some post → post.NewChatTitle = "")
    (hcbq : update.CallbackQuery = some cbq) :
    (∀ re ∈ anchoredPatterns, ∀ (s : List Char) (c : Char), (re.exec s).isSome = true →
      (∀ m, re.exec s = some m → m.pre = [] ∧ m.whole = s) ∧
      re.exec (c :: s) = none ∧
      ((re.exec (s ++ [c])).isSome = true →
        re = cbqSettingsChannelsAndChatsDetails ∧ c.isDigit = true)) ∧
    (∀ (s : List Char) (c : Char), (cbqSettingsChannelsAndChatsDetails.exec s).isSome = true →
      c.isDigit = true → (cbqSettingsChannelsAndChatsDetails.exec (s ++ [c])).isSome = true) ∧
    (∀ pre d1 d2 suf, IsDigits d1 → IsDigits d2 →
      cbq.Data.data = pre ++ toggleText d1 d2 ++ suf →
      ∃ a e1 e2 rest, IsDigits e1 ∧ IsDigits e2 ∧
        cbq.Data.data = a ++ toggleText e1 e2 ++ rest ∧
        (∀ a1 f1 f2 rest1, IsDigits f1 → IsDigits f2 →
          cbq.Data.data = a1 ++ toggleText f1 f2 ++ rest1 → a.length ≤ a1.length) ∧
        cbqFileRestrictionsChat.FindStringSubmatch cbq.Data =
          [String.mk (toggleText e1 e2), String.mk e1, String.mk e2] ∧
        (digitsValue e1 < 2 ^ (bot.intSize - 1) → digitsValue e2 < 2 ^ (bot.intSize - 1) →
          RoutesTo bot ctx update w []
            (.onFileRestrictionsSetChatCBQ cbq (digitsValue e1) (digitsValue e2)) w)) := by
  refine ⟨?_, ?_, ?_⟩
  · intro re hre
    simp only [anchoredPatterns, List.mem_cons, List.mem_singleton, List.not_mem_nil,
      or_false] at hre
    rcases hre with h | h | h | h | h | h | h | h <;> subst h
    · exact anchoredClaim_mid _ _ "le:".data 'f' 'i' rfl (by decide) (by decide) (by decide)
    · exact anchoredClaim_mid _ _ "le:".data 'f' 'i' rfl (by decide) (by decide) (by decide)
    · exact anchoredClaim_mid _ _ "le:".data 'f' 'i' rfl (by decide) (by decide) (by decide)
    · exact anchoredClaim_mid _ _ "le:".data 'f' 'i' rfl (by decide) (by decide) (by decide)
    · exact anchoredClaim_mid _ _ "le:".data 'f' 'i' rfl (by decide) (by decide) (by decide)
    · exact anchoredClaim_details
    · exact anchoredClaim_mid _ _ "ttings:channels-and-chats:".data 's' 'e' rfl (by decide)
        (by decide) (by decide)
    · exact anchoredClaim_mid _ _ "ttings:channels-and-chats:".data 's' 'e' rfl (by decide)
        (by decide) (by decide)
  · intro s c h hc
    exact (anchored_last_extra "settings:channels-and-chats:".data
      "ttings:channels-and-chats:".data 's' 'e' rfl (by decide) s c h).2.mpr hc
  · intro pre d1 d2 suf hd1 hd2 hs
    obtain ⟨a, e1, e2, rest, he1, he2, hsa, hexec, hmin⟩ :=
      exec_toggle_leftmost cbq.Data.data pre d1 d2 suf hd1 hd2 hs
    refine ⟨a, e1, e2, rest, he1, he2, hsa, hmin, ?_, ?_⟩
    · rw [findStringSubmatch_of_exec _ _ _ hexec]
      rfl
    · intro hfit1 hfit2
      refine routesTo_of_eq (show handlerCalls [] = [] from rfl) ?_
      rw [Run.after_nil, onUpdate_callback_eq bot ctx update cbq w hmsg hpost hcbq]
      have hg := (guard_iff cbqFileRestrictionsChat cbq.Data).mpr (by rw [hexec]; rfl)
      have hmem : toggleCase bot ∈ (literalCases bot).take 6 :=
        List.mem_cons_of_mem _ (List.mem_cons_of_mem _ (List.mem_cons_of_mem _
          (List.mem_cons_of_mem _ (List.mem_cons_of_mem _ (List.mem_cons_self _ _)))))
      rw [callbackQuery_of_early_case bot ctx ctx.user cbq w _ hmem hg]
      exact toggleCase_body bot ctx ctx.user cbq w _ e1 e2 hexec rfl he1 he2 hfit1 hfit2

/-- The details pattern still matches a payload it matches when a digit is added
at the end; and a payload in which the toggle template occurs with a file
identifier too large for `int` reaches no handler. -/
theorem anchoring_claim_counterexample :
    (cbqSettingsChannelsAndChatsDetails.exec "settings:channels-and-chats:1".data).isSome = true ∧
    (cbqSettingsChannelsAndChatsDetails.exec
      ("settings:channels-and-chats:1".data ++ ['2'])).isSome = true ∧
    handlerCalls (onUpdate demoBot ⟨⟨2⟩⟩
      ⟨none, none,
        some (demoCbq "xfile:99999999999999999999:restrictions:chat-subscription:2:toggle")⟩
      0).trace = [] := by
  decide

theorem anchoring_of_literal_patterns_witness :
    RoutesTo demoBot ⟨⟨2⟩⟩
      ⟨none, none, some (demoCbq "xfile:1:restrictions:chat-subscription:2:toggle")⟩ 0 []
      (.onFileRestrictionsSetChatCBQ
        (demoCbq "xfile:1:restrictions:chat-subscription:2:toggle") 1 2) 0 := by
  obtain ⟨a, e1, e2, rest, he1, he2, hs, hmin, hsub, hroute⟩ :=
    (anchoring_of_literal_patterns demoBot ⟨⟨2⟩⟩
      ⟨none, none, some (demoCbq "xfile:1:restrictions:chat-subscription:2:toggle")⟩
      (demoCbq "xfile:1:restrictions:chat-subscription:2:toggle") 0 rfl (by simp) rfl).2.2
      ['x'] ['1'] ['2'] ['e'] ⟨by decide, by decide⟩ ⟨by decide, by decide⟩ (by decide)
  have hconcrete : cbqFileRestrictionsChat.FindStringSubmatch
      (demoCbq "xfile:1:restrictions:chat-subscription:2:toggle").Data =
      ["file:1:restrictions:chat-subscription:2:toggl", "1", "2"] := by decide
  rw [hconcrete] at hsub
  simp only [List.cons.injEq, and_true] at hsub
  have h1 : e1 = ['1'] := (congrArg String.data hsub.2.1).symm
  have h2 : e2 = ['2'] := (congrArg String.data hsub.2.2).symm
  subst h1; subst h2
  exact hroute (by decide) (by decide)

/-! ## C11: the captures the switch reads -/

theorem isDigit_ascii (c : Char) (h : c.isDigit = true) : 48 ≤ c.toNat ∧ c.toNat ≤ 57 := by
  unfold Char.isDigit at h
  simp only [ge_iff_le, Bool.and_eq_true, decide_eq_true_eq] at h
  exact ⟨h.1, h.2⟩

/-- On a non-empty digit string `Atoi` either gives its value or fails with
`ErrRange`, the latter exactly when the value does not fit. -/
theorem atoi_digits_cases (intSize : Nat) (d : List Char) (hd : IsDigits d) :
    (digitsValue d < 2 ^ (intSize - 1) ∧
      Atoi intSize (String.mk d) = .ok (digitsValue d : Int)) ∨
    (2 ^ (intSize - 1) ≤ digitsValue d ∧
      Atoi intSize (String.mk d) = .error (.NumError "Atoi" (String.mk d) .ErrRange)) := by
  by_cases h : digitsValue d < 2 ^ (intSize - 1)
  · exact Or.inl ⟨h, atoi_digits intSize d hd h⟩
  · exact Or.inr ⟨by omega, atoi_digits_range intSize d hd (by omega)⟩

/-- When the guard of a one-group case holds, its submatch result has index 1,
holding a non-empty digit string, and the body either calls its handler or
returns the `ErrRange` failure of `Atoi`, wrapped. -/
theorem oneGroupCase_total {σ : Type} (bot : Bot σ) (ctx : Context) (user : User)
    (cbq : CallbackQuery) (w : σ) (re : Regexp) (call : User → CallbackQuery → Int → Call)
    (hcaps : ∀ s m, re.exec s = some m → ∃ d, IsDigits d ∧ m.caps = [d])
    (hg : 0 < (re.FindStringIndex cbq.Data).length) :
    ∃ whole d, IsDigits d ∧
      re.FindStringSubmatch cbq.Data = [String.mk whole, String.mk d] ∧
      ((digitsValue d < 2 ^ (bot.intSize - 1) ∧
          (oneGroupCase bot re call).body ctx user cbq w =
            invoke bot ctx (call user cbq (digitsValue d : Int)) w) ∨
        (2 ^ (bot.intSize - 1) ≤ digitsValue d ∧
          (oneGroupCase bot re call).body ctx user cbq w =
            { ret := .err (.Wrap (.NumError "Atoi" (String.mk d) .ErrRange) "parse cbq data")
              world := w, trace := [] })) := by
  obtain ⟨m, hm⟩ := Option.isSome_iff_exists.mp ((guard_iff re cbq.Data).mp hg)
  obtain ⟨d, hd, hc⟩ := hcaps _ _ hm
  have hres : re.FindStringSubmatch cbq.Data = [String.mk m.whole, String.mk d] := by
    rw [findStringSubmatch_of_exec re _ m hm, hc]
    rfl
  refine ⟨m.whole, d, hd, hres, ?_⟩
  rcases atoi_digits_cases bot.intSize d hd with ⟨hfit, hok⟩ | ⟨hbig, herr⟩
  · exact Or.inl ⟨hfit, oneGroupCase_body bot ctx user cbq w re call m d hm hc hd hfit⟩
  · refine Or.inr ⟨hbig, ?_⟩
    simp only [oneGroupCase, atoiGroup, hres, List.getElem?_cons_succ,
      List.getElem?_cons_zero, herr]

/-- When the guard of the toggle case holds, its submatch result has indices 1
and 2, each holding a non-empty digit string, and the body either calls its
handler or returns the `ErrRange` failure of `Atoi` on one of them, wrapped. -/
theorem toggleCase_total {σ : Type} (bot : Bot σ) (ctx : Context) (user : User)
    (cbq : CallbackQuery) (w : σ)
    (hg : 0 < (cbqFileRestrictionsChat.FindStringIndex cbq.Data).length) :
    ∃ whole d1 d2, IsDigits d1 ∧ IsDigits d2 ∧
      cbqFileRestrictionsChat.FindStringSubmatch cbq.Data =
        [String.mk whole, String.mk d1, String.mk d2] ∧
      ((digitsValue d1 < 2 ^ (bot.intSize - 1) ∧ digitsValue d2 < 2 ^ (bot.intSize - 1) ∧
          (toggleCase bot).body ctx user cbq w =
            invoke bot ctx (.onFileRestrictionsSetChatCBQ cbq (digitsValue d1 : Int)
              (digitsValue d2 : Int)) w) ∨
        (2 ^ (bot.intSize - 1) ≤ digitsValue d1 ∧
          (toggleCase bot).body ctx user cbq w =
            { ret := .err (.Wrap (.NumError "Atoi" (String.mk d1) .ErrRange)
                "parse cbq data (file_id)")
              world := w, trace := [] }) ∨
        (digitsValue d1 < 2 ^ (bot.intSize - 1) ∧ 2 ^ (bot.intSize - 1) ≤ digitsValue d2 ∧
          (toggleCase bot).body ctx user cbq w =
            { ret := .err (.Wrap (.NumError "Atoi" (String.mk d2) .ErrRange)
                "parse cbq data (chat_id)")
              world := w, trace := [] })) := by
  obtain ⟨m, hm⟩ :=
    Option.isSome_iff_exists.mp ((guard_iff cbqFileRestrictionsChat cbq.Data).mp hg)
  obtain ⟨a, d1, d2, rest, hd1, hd2, _, hmeq⟩ := exec_toggle_sound _ m hm
  have hc : m.caps = [d1, d2] := by rw [hmeq]
  have hres : cbqFileRestrictionsChat.FindStringSubmatch cbq.Data =
      [String.mk m.whole, String.mk d1, String.mk d2] := by
    rw [findStringSubmatch_of_exec _ _ m hm, hc]
    rfl
  refine ⟨m.whole, d1, d2, hd1, hd2, hres, ?_⟩
  rcases atoi_digits_cases bot.intSize d1 hd1 with ⟨hfit1, hok1⟩ | ⟨hbig1, herr1⟩
  · rcases atoi_digits_cases bot.intSize d2 hd2 with ⟨hfit2, hok2⟩ | ⟨hbig2, herr2⟩
    · exact Or.inl ⟨hfit1, hfit2,
        toggleCase_body bot ctx user cbq w m d1 d2 hm hc hd1 hd2 hfit1 hfit2⟩
    · refine Or.inr (Or.inr ⟨hfit1, hbig2, ?_⟩)
      simp only [toggleCase, atoiGroup, hres, List.getElem?_cons_succ,
        List.getElem?_cons_zero, hok1, herr2]
  · refine Or.inr (Or.inl ⟨hbig1, ?_⟩)
    simp only [toggleCase, atoiGroup, hres, List.getElem?_cons_succ,
      List.getElem?_cons_zero, herr1]

/-- Every way the body of a case whose guard holds can end: a handler was
called, or a captured digit string was too large for `int`. -/
theorem caseBody_total {σ : Type} (bot : Bot σ) (ctx : Context) (user : User)
    (cbq : CallbackQuery) (w : σ) (c : CbqCase σ) (hmem : c ∈ cbqTable bot)
    (hg : 0 < (c.re.FindStringIndex cbq.Data).length) :
    (∃ call, c.body ctx user cbq w = invoke bot ctx call w) ∨
    (∃ d message, IsDigits d ∧ 2 ^ (bot.intSize - 1) ≤ digitsValue d ∧
      c.body ctx user cbq w =
        { ret := .err (.Wrap (.NumError "Atoi" (String.mk d) .ErrRange) message)
          world := w, trace := [] }) := by
  have hkind : c ∈ literalCases bot ∨ c ∈ settingsCases bot := by
    rw [cbqTable, List.append_assoc] at hmem
    rcases List.mem_append.mp hmem with h1 | h1
    · exact Or.inl (List.mem_of_mem_take h1)
    · rcases List.mem_append.mp h1 with h2 | h2
      · exact Or.inr h2
      · exact Or.inl (List.mem_of_mem_drop h2)
  rcases hkind with hlit | hset
  · rcases literalCases_shape bot c hlit with h | ⟨re, call, h, hcaps⟩
    · subst h
      obtain ⟨_, d1, d2, hd1, hd2, _, hrun⟩ := toggleCase_total bot ctx user cbq w hg
      rcases hrun with ⟨_, _, h⟩ | ⟨hbig, h⟩ | ⟨_, hbig, h⟩
      · exact Or.inl ⟨_, h⟩
      · exact Or.inr ⟨d1, _, hd1, hbig, h⟩
      · exact Or.inr ⟨d2, _, hd2, hbig, h⟩
    · subst h
      obtain ⟨_, d, hd, _, hrun⟩ := oneGroupCase_total bot ctx user cbq w re call hcaps hg
      rcases hrun with ⟨_, h⟩ | ⟨hbig, h⟩
      · exact Or.inl ⟨_, h⟩
      · exact Or.inr ⟨d, _, hd, hbig, h⟩
  · simp only [settingsCases, List.mem_cons, List.mem_singleton, List.not_mem_nil,
      or_false] at hset
    rcases hset with h | h | h | h <;> subst h
    · exact Or.inl ⟨.onSettingsCallbackQuery cbq, rfl⟩
    · exact Or.inl ⟨.onSettingsToggleLongIDsCBQ cbq, rfl⟩
    · exact Or.inl ⟨.onSettingsChannelsAndChats cbq, rfl⟩
    · exact Or.inl ⟨.onSettingsChannelsAndChatsConnect cbq, rfl⟩

/-- Every way the switch over the callback patterns can end: nothing matched,
a handler was called, or a captured digit string was too large for `int`. -/
theorem callbackQuery_total {σ : Type} (bot : Bot σ) (ctx : Context) (user : User)
    (cbq : CallbackQuery) (w : σ) :
    onUpdateCallbackQuery bot ctx user cbq w = { ret := .nil, world := w, trace := [] } ∨
    (∃ c, onUpdateCallbackQuery bot ctx user cbq w = invoke bot ctx c w) ∨
    (∃ d message, IsDigits d ∧ 2 ^ (bot.intSize - 1) ≤ digitsValue d ∧
      onUpdateCallbackQuery bot ctx user cbq w =
        { ret := .err (.Wrap (.NumError "Atoi" (String.mk d) .ErrRange) message)
          world := w, trace := [] }) := by
  rw [onUpdateCallbackQuery_eq_table]
  unfold dispatchTable
  cases hf : (cbqTable bot).find?
      (fun c => decide (0 < (c.re.FindStringIndex cbq.Data).length)) with
  | none => exact Or.inl rfl
  | some c =>
    have hg := List.find?_some hf
    simp only [decide_eq_true_eq] at hg
    exact Or.inr (caseBody_total bot ctx user cbq w c (List.mem_of_find?_eq_some hf) hg)

/-- Each anchored literal pattern, when it matches, matches the whole text and
captures one non-empty digit string. -/
theorem anchoredPatterns_caps (re : Regexp) (hre : re ∈ anchoredPatterns)
    (s : List Char) (m : Match) (hm : re.exec s = some m) :
    m.whole = s ∧ ∃ d, IsDigits d ∧ m.caps = [d] := by
  simp only [anchoredPatterns, List.mem_cons, List.mem_singleton, List.not_mem_nil,
    or_false] at hre
  rcases hre with h | h | h | h | h | h | h | h <;> subst h
  · exact ⟨(anchored_whole _ s m hm).2, caps_anchored_mid _ _ s m hm⟩
  · exact ⟨(anchored_whole _ s m hm).2, caps_anchored_mid _ _ s m hm⟩
  · exact ⟨(anchored_whole _ s m hm).2, caps_anchored_mid _ _ s m hm⟩
  · exact ⟨(anchored_whole _ s m hm).2, caps_anchored_mid _ _ s m hm⟩
  · exact ⟨(anchored_whole _ s m hm).2, caps_anchored_mid _ _ s m hm⟩
  · exact ⟨(anchored_whole _ s m hm).2, caps_anchored_last _ s m hm⟩
  · exact ⟨(anchored_whole _ s m hm).2, caps_anchored_mid _ _ s m hm⟩
  · exact ⟨(anchored_whole _ s m hm).2, caps_anchored_mid _ _ s m hm⟩

/-- C11: in the callback branch of `onUpdate`, for every payload: when the guard
of one of the eight anchored literal patterns holds, its submatch result is the
payload followed by one capture, so index 1 exists; when the guard of the toggle
pattern holds, its submatch result has indices 1 and 2; every such capture is a
non-empty string of the ASCII digits `0` to `9`, on which `Atoi` gives the value
when it is below `2^(intSize-1)` and fails with `ErrRange` otherwise, never with
`ErrSyntax`. Accordingly the branch itself never panics (a panic can only come
out of a handler it called), and an error it returns without having called a
handler is the wrapped `ErrRange` failure on a digit string too large for `int`. -/
theorem callback_captures_in_range {σ : Type} (bot : Bot σ) (ctx : Context) (update : Update)
    (cbq : CallbackQuery) (w : σ)
    (hmsg : update.Message = none)
    (hpost : ∀ post, update.ChannelPost = some post → post.NewChatTitle = "")
    (hcbq : update.CallbackQuery = some cbq) :
    (∀ re ∈ anchoredPatterns, 0 < (re.FindStringIndex cbq.Data).length →
      ∃ d, IsDigits d ∧ re.FindStringSubmatch cbq.Data = [cbq.Data, String.mk d]) ∧
    (0 < (cbqFileRestrictionsChat.FindStringIndex cbq.Data).length →
      ∃ whole d1 d2, IsDigits d1 ∧ IsDigits d2 ∧
        cbqFileRestrictionsChat.FindStringSubmatch cbq.Data =
          [String.mk whole, String.mk d1, String.mk d2]) ∧
    (∀ d, IsDigits d →
      (∀ c ∈ d, 48 ≤ c.toNat ∧ c.toNat ≤ 57) ∧
      ((digitsValue d < 2 ^ (bot.intSize - 1) ∧
          Atoi bot.intSize (String.mk d) = .ok (digitsValue d : Int)) ∨
        (2 ^ (bot.intSize - 1) ≤ digitsValue d ∧
          Atoi bot.intSize (String.mk d) =
            .error (.NumError "Atoi" (String.mk d) .ErrRange)))) ∧
    ((onUpdate bot ctx update w).ret = .panic →
      handlerCalls (onUpdate bot ctx update w).trace ≠ []) ∧
    (∀ e, (onUpdate bot ctx update w).ret = .err e →
      handlerCalls (onUpdate bot ctx update w).trace = [] →
      ∃ d message, IsDigits d ∧ 2 ^ (bot.intSize - 1) ≤ digitsValue d ∧
        e = .Wrap (.NumError "Atoi" (String.mk d) .ErrRange) message) := by
  have hrun := onUpdate_callback_eq bot ctx update cbq w hmsg hpost hcbq
  refine ⟨?_, ?_, ?_, ?_, ?_⟩
  · intro re hre hg
    obtain ⟨m, hm⟩ := Option.isSome_iff_exists.mp ((guard_iff re cbq.Data).mp hg)
    obtain ⟨hwhole, d, hd, hc⟩ := anchoredPatterns_caps re hre _ m hm
    refine ⟨d, hd, ?_⟩
    rw [findStringSubmatch_of_exec re _ m hm, hc, hwhole]
    rfl
  · intro hg
    obtain ⟨whole, d1, d2, hd1, hd2, hres, _⟩ := toggleCase_total bot ctx ctx.user cbq w hg
    exact ⟨whole, d1, d2, hd1, hd2, hres⟩
  · intro d hd
    refine ⟨?_, atoi_digits_cases bot.intSize d hd⟩
    intro c hc
    exact isDigit_ascii c (List.all_eq_true.mp hd.2 c hc)
  · intro hp
    rw [hrun] at hp ⊢
    rcases callbackQuery_total bot ctx ctx.user cbq w with h | ⟨c, h⟩ | ⟨d, message, _, _, h⟩
    · rw [h] at hp; cases hp
    · rw [h, handlerCalls_invoke]; simp
    · rw [h] at hp; cases hp
  · intro e he hnone
    rw [hrun] at he hnone
    rcases callbackQuery_total bot ctx ctx.user cbq w with h | ⟨c, h⟩ | ⟨d, message, hd, hbig, h⟩
    · rw [h] at he; cases he
    · rw [h, handlerCalls_invoke] at hnone; cases hnone
    · rw [h] at he
      simp only [Ret.err.injEq] at he
      exact ⟨d, message, hd, hbig, he.symm⟩

theorem callback_captures_in_range_witness :
    ∃ d message, IsDigits d ∧ 2 ^ (demoBot.intSize - 1) ≤ digitsValue d ∧
      Err.Wrap (.NumError "Atoi" "99999999999999999999" .ErrRange)
          "parse cbq data (chat_id)" =
        .Wrap (.NumError "Atoi" (String.mk d) .ErrRange) message :=
  (callback_captures_in_range demoBot ⟨⟨2⟩⟩
    ⟨none, none,
      some (demoCbq "file:7:restrictions:chat-subscription:99999999999999999999:toggl")⟩
    (demoCbq "file:7:restrictions:chat-subscription:99999999999999999999:toggl") 0
    rfl (by simp) rfl).2.2.2.2
    (.Wrap (.NumError "Atoi" "99999999999999999999" .ErrRange) "parse cbq data (chat_id)")
    (by decide) (by decide)

/-! ## C10: how many handlers run -/

theorem endsInOneCall_weaken {σ : Type} (bot : Bot σ) (ctx : Context) (P Q : Call → Prop)
    (r : Run σ) (hPQ : ∀ c, P c → Q c) (h : EndsInOneCall bot ctx P r) :
    EndsInOneCall bot ctx Q r := by
  rcases h with h | ⟨pre, c, w1, hc, hpre, h⟩
  · exact Or.inl h
  · exact Or.inr ⟨pre, c, w1, hPQ c hc, hpre, h⟩

theorem endsInOneCall_onUpdate {σ : Type} (bot : Bot σ) (ctx : Context) (update : Update)
    (w : σ) : EndsInOneCall bot ctx (fun _ => True) (onUpdate bot ctx update w) := by
  unfold onUpdate
  split
  · split
    · exact endsInOneCall_invoke bot ctx _ _ _ trivial
    · exact endsInOneCall_weaken bot ctx _ _ _ (fun _ _ => trivial)
        (endsInOneCall_rest bot ctx update w)
  · exact endsInOneCall_weaken bot ctx _ _ _ (fun _ _ => trivial)
      (endsInOneCall_rest bot ctx update w)

/-- A message whose state lookup fails: the error is returned wrapped and no
handler is called. -/
theorem onUpdateMessage_state_error {σ : Type} (bot : Bot σ) (ctx : Context) (user : User)
    (msg : Message) (w : σ) (err : Err) (hstate : (bot.state user.ID w).1 = .error err) :
    onUpdateMessage bot ctx user msg w =
      { ret := .err (.Wrap err "get state"), world := (bot.state user.ID w).2,
        trace := [.stateGet user.ID] } := by
  simp [onUpdateMessage, hstate]

/-- A message whose state lookup succeeds ends in the call of a handler. -/
theorem onUpdateMessage_calls {σ : Type} (bot : Bot σ) (ctx : Context) (user : User)
    (msg : Message) (w : σ) (st : State) (hstate : (bot.state user.ID w).1 = .ok st) :
    ∃ c, onUpdateMessage bot ctx user msg w =
      Run.after [.stateGet user.ID] (invoke bot ctx c (bot.state user.ID w).2) := by
  unfold onUpdateMessage
  simp only [hstate]
  split_ifs <;> exact ⟨_, rfl⟩

/-- The body of a literal case fails without a call when a capture does not parse. -/
theorem caseBody_fails {σ : Type} (bot : Bot σ) (ctx : Context) (user : User)
    (cbq : CallbackQuery) (w : σ) (c : CbqCase σ) (hlit : c ∈ literalCases bot)
    (i : Nat) (group : String) (e : Err) (hi : 1 ≤ i)
    (hgroup : (c.re.FindStringSubmatch cbq.Data)[i]? = some group)
    (herr : Atoi bot.intSize group = .error e) :
    FailsWithoutCall w (c.body ctx user cbq w) := by
  rcases literalCases_shape bot c hlit with h | ⟨re, call, h, hcaps⟩
  · subst h
    exact toggleCase_parse_failure bot ctx user cbq w i group e hi hgroup herr
  · subst h
    exact oneGroupCase_parse_failure bot ctx user cbq w re call hcaps i group e hi hgroup herr

/-- The body of a case whose guard holds calls a handler unless the case is a
literal one and a capture does not parse. -/
theorem caseBody_calls {σ : Type} (bot : Bot σ) (ctx : Context) (user : User)
    (cbq : CallbackQuery) (w : σ) (c : CbqCase σ) (hmem : c ∈ cbqTable bot)
    (hg : 0 < (c.re.FindStringIndex cbq.Data).length)
    (hok : ¬ (c ∈ literalCases bot ∧ ∃ i group e, 1 ≤ i ∧
      (c.re.FindStringSubmatch cbq.Data)[i]? = some group ∧
      Atoi bot.intSize group = .error e)) :
    ∃ call, c.body ctx user cbq w = invoke bot ctx call w := by
  have hkind : c ∈ literalCases bot ∨ c ∈ settingsCases bot := by
    rw [cbqTable, List.append_assoc] at hmem
    rcases List.mem_append.mp hmem with h1 | h1
    · exact Or.inl (List.mem_of_mem_take h1)
    · rcases List.mem_append.mp h1 with h2 | h2
      · exact Or.inr h2
      · exact Or.inl (List.mem_of_mem_drop h2)
  rcases hkind with hlit | hset
  · rcases literalCases_shape bot c hlit with h | ⟨re, call, h, hcaps⟩
    · subst h
      obtain ⟨_, d1, d2, hd1, hd2, hres, hrun⟩ := toggleCase_total bot ctx user cbq w hg
      rcases hrun with ⟨_, _, h⟩ | ⟨hbig, _⟩ | ⟨_, hbig, _⟩
      · exact ⟨_, h⟩
      · exact absurd ⟨hlit, 1, String.mk d1, _, Nat.le_refl 1,
          by rw [show (toggleCase bot).re = cbqFileRestrictionsChat from rfl, hres]; rfl,
          atoi_digits_range bot.intSize d1 hd1 hbig⟩ hok
      · exact absurd ⟨hlit, 2, String.mk d2, _, by decide,
          by rw [show (toggleCase bot).re = cbqFileRestrictionsChat from rfl, hres]; rfl,
          atoi_digits_range bot.intSize d2 hd2 hbig⟩ hok
    · subst h
      obtain ⟨_, d, hd, hres, hrun⟩ := oneGroupCase_total bot ctx user cbq w re call hcaps hg
      rcases hrun with ⟨_, h⟩ | ⟨hbig, _⟩
      · exact ⟨_, h⟩
      · exact absurd ⟨hlit, 1, String.mk d, _, Nat.le_refl 1,
          by rw [show (oneGroupCase bot re call).re = re from rfl, hres]; rfl,
          atoi_digits_range bot.intSize d hd hbig⟩ hok
  · simp only [settingsCases, List.mem_cons, List.mem_singleton, List.not_mem_nil,
      or_false] at hset
    rcases hset with h | h | h | h <;> subst h
    · exact ⟨.onSettingsCallbackQuery cbq, rfl⟩
    · exact ⟨.onSettingsToggleLongIDsCBQ cbq, rfl⟩
    · exact ⟨.onSettingsChannelsAndChats cbq, rfl⟩
    · exact ⟨.onSettingsChannelsAndChatsConnect cbq, rfl⟩

/-- C10, as amended: `onUpdate` calls at most one handler, and when it calls one
it returns what that call returned and leaves the world that call left. It
calls exactly one handler when the update has a title-changing channel post,
when it has (without such a post) a message whose state lookup succeeds, and
when it has (without such a post or a message) a callback query whose first
matching case is not a literal case with a capture that fails to parse. It
calls none in the four remaining situations: the state lookup of a message
fails (the error is returned wrapped); the update has no message and no
callback query (nil); no callback pattern matches (nil); a capture of the first
matching literal case fails to parse (the error is returned wrapped). -/
theorem onUpdate_at_most_one_handler {σ : Type} (bot : Bot σ) (ctx : Context)
    (update : Update) (w : σ) :
    (handlerCalls (onUpdate bot ctx update w).trace = [] ∨
      ∃ pre c w1, handlerCalls pre = [] ∧
        onUpdate bot ctx update w = Run.after pre (invoke bot ctx c w1) ∧
        handlerCalls (onUpdate bot ctx update w).trace = [c] ∧
        (onUpdate bot ctx update w).ret = (invoke bot ctx c w1).ret ∧
        (onUpdate bot ctx update w).world = (invoke bot ctx c w1).world) ∧
    (∀ post, update.ChannelPost = some post → post.NewChatTitle ≠ "" →
      RoutesTo bot ctx update w [] (.onChatNewTitle post) w) ∧
    ((∀ post, update.ChannelPost = some post → post.NewChatTitle = "") →
      (∀ msg err, update.Message = some msg →
        (bot.state ctx.user.ID w).1 = .error err →
        onUpdate bot ctx update w =
          { ret := .err (.Wrap err "get state"), world := (bot.state ctx.user.ID w).2,
            trace := [.stateGet ctx.user.ID] }) ∧
      (∀ msg st, update.Message = some msg →
        (bot.state ctx.user.ID w).1 = .ok st →
        ∃ c, RoutesTo bot ctx update w [.stateGet ctx.user.ID] c (bot.state ctx.user.ID w).2) ∧
      (update.Message = none → update.CallbackQuery = none →
        onUpdate bot ctx update w = { ret := .nil, world := w, trace := [] }) ∧
      (∀ cbq, update.Message = none → update.CallbackQuery = some cbq →
        ((cbqTable bot).find?
            (fun c => decide (0 < (c.re.FindStringIndex cbq.Data).length)) = none →
          onUpdate bot ctx update w = { ret := .nil, world := w, trace := [] }) ∧
        (∀ c, (cbqTable bot).find?
            (fun c => decide (0 < (c.re.FindStringIndex cbq.Data).length)) = some c →
          ((c ∈ literalCases bot ∧ ∃ i group e, 1 ≤ i ∧
              (c.re.FindStringSubmatch cbq.Data)[i]? = some group ∧
              Atoi bot.intSize group = .error e) →
            ∃ cause message, onUpdate bot ctx update w =
              { ret := .err (.Wrap cause message), world := w, trace := [] }) ∧
          (¬ (c ∈ literalCases bot ∧ ∃ i group e, 1 ≤ i ∧
              (c.re.FindStringSubmatch cbq.Data)[i]? = some group ∧
              Atoi bot.intSize group = .error e) →
            ∃ call, RoutesTo bot ctx update w [] call w)))) := by
  refine ⟨?_, ?_, ?_⟩
  · rcases endsInOneCall_onUpdate bot ctx update w with h | ⟨pre, c, w1, _, hpre, h⟩
    · exact Or.inl h
    · refine Or.inr ⟨pre, c, w1, hpre, h, ?_, ?_, ?_⟩
      · rw [h]
        simp [Run.after, handlerCalls_append, hpre, handlerCalls_invoke]
      · rw [h]; rfl
      · rw [h]; rfl
  · intro post hp ht
    refine routesTo_of_eq (show handlerCalls [] = [] from rfl) ?_
    simp [onUpdate, hp, ht, Run.after]
  · intro hpost
    refine ⟨?_, ?_, ?_, ?_⟩
    · intro msg err hmsg hstate
      rw [onUpdate_message_eq bot ctx update msg w hmsg hpost]
      exact onUpdateMessage_state_error bot ctx ctx.user msg w err hstate
    · intro msg st hmsg hstate
      obtain ⟨c, hc⟩ := onUpdateMessage_calls bot ctx ctx.user msg w st hstate
      refine ⟨c, routesTo_of_eq rfl ?_⟩
      rw [onUpdate_message_eq bot ctx update msg w hmsg hpost]
      exact hc
    · intro hmsg hcbq
      rw [onUpdate_eq_rest bot ctx update w hpost]
      simp [onUpdateRest, hmsg, hcbq]
    · intro cbq hmsg hcbq
      have hrun : onUpdate bot ctx update w =
          dispatchTable (cbqTable bot) ctx ctx.user cbq w := by
        rw [onUpdate_callback_eq bot ctx update cbq w hmsg hpost hcbq,
          onUpdateCallbackQuery_eq_table]
      constructor
      · intro hnone
        rw [hrun]
        unfold dispatchTable
        rw [hnone]
      · intro c hfirst
        have hbody : onUpdate bot ctx update w = c.body ctx ctx.user cbq w := by
          rw [hrun]
          unfold dispatchTable
          rw [hfirst]
        have hg := List.find?_some hfirst
        simp only [decide_eq_true_eq] at hg
        constructor
        · rintro ⟨hlit, i, group, e, hi, hgroup, herr⟩
          rw [hbody]
          exact caseBody_fails bot ctx ctx.user cbq w c hlit i group e hi hgroup herr
        · intro hok
          obtain ⟨call, hcall⟩ := caseBody_calls bot ctx ctx.user cbq w c
            (List.mem_of_find?_eq_some hfirst) hg hok
          refine ⟨call, routesTo_of_eq (show handlerCalls [] = [] from rfl) ?_⟩
          rw [Run.after_nil, hbody]
          exact hcall

/-- Four updates on which `onUpdate` calls no handler: one that carries nothing,
a message whose state lookup fails, a callback query no pattern matches, and a
callback query whose captured identifier is too large for `int`. -/
theorem exactly_one_handler_counterexample :
    handlerCalls (onUpdate demoBot ⟨⟨2⟩⟩ ⟨none, none, none⟩ 0).trace = [] ∧
    handlerCalls (onUpdate demoBot ⟨⟨3⟩⟩ ⟨some (demoMsg "/help"), none, none⟩ 0).trace = [] ∧
    handlerCalls (onUpdate demoBot ⟨⟨2⟩⟩
      ⟨none, none, some (demoCbq "file:1:archive")⟩ 0).trace = [] ∧
    handlerCalls (onUpdate demoBot ⟨⟨2⟩⟩
      ⟨none, none, some (demoCbq "file:99999999999999999999:delete")⟩ 0).trace = [] := by
  decide

theorem onUpdate_at_most_one_handler_witness :
    (∃ c, RoutesTo demoBot ⟨⟨2⟩⟩ ⟨some (demoMsg "/help"), none, none⟩ 0 [.stateGet 2] c 0) ∧
    onUpdate demoBot ⟨⟨3⟩⟩ ⟨some (demoMsg "/help"), none, none⟩ 0 =
      { ret := .err (.Wrap (.other 3) "get state"), world := 0, trace := [.stateGet 3] } :=
  ⟨((onUpdate_at_most_one_handler demoBot ⟨⟨2⟩⟩ ⟨some (demoMsg "/help"), none, none⟩ 0).2.2
      (by simp)).2.1 (demoMsg "/help") .Empty rfl rfl,
   ((onUpdate_at_most_one_handler demoBot ⟨⟨3⟩⟩ ⟨some (demoMsg "/help"), none, none⟩ 0).2.2
      (by simp)).1 (demoMsg "/help") (.other 3) rfl rfl⟩

end ShareFileBot
